import Mathlib

/-!
Verification of the OM_module monitoring core against its specification.

The Go sources are shallowly embedded: Go strings become `List Char`
(`GoStr`), Go `float64` arithmetic is modelled exactly over `ℚ`,
Go maps become association lists, and each stateful method becomes a
pure function on an explicit state record.  Every definition is
translated from the corresponding function in the repository; the file
names match the Go identifiers wherever Lean allows it.
-/

namespace OMModule

/-- Go strings are modelled as lists of characters. -/
abbrev GoStr := List Char

/-- Model of `strings.TrimSpace` (leading part): drop leading whitespace. -/
def goTrimLeft (l : GoStr) : GoStr := l.dropWhile Char.isWhitespace

/-- Model of `strings.TrimSpace`: drop leading and trailing whitespace. -/
def goTrimSpace (l : GoStr) : GoStr :=
  ((goTrimLeft l).reverse.dropWhile Char.isWhitespace).reverse

/-- Model of `strings.HasPrefix` on char lists. -/
def goHasPre : GoStr → GoStr → Bool
  | [], _ => true
  | _ :: _, [] => false
  | p :: ps, c :: cs => p = c && goHasPre ps cs

/-- Model of `strings.Contains` (substring search) on char lists. -/
def goContains : GoStr → GoStr → Bool
  | _, [] => false
  | sub, l@(_ :: cs) => goHasPre sub l || goContains sub cs

/-- Model of `strings.Contains` where the haystack may be shorter than
the needle; a needle is contained if some suffix starts with it.  The
empty suffix case: Go `strings.Contains(s, sub)` with nonempty `sub`
and empty `s` is false, matching `goContains sub []  = false`. -/
def goToLower (l : GoStr) : GoStr := l.map Char.toLower

/-- Model of `strings.Fields`: split around runs of whitespace. -/
def goFieldsAux : GoStr → GoStr → List GoStr
  | [], acc => if acc.isEmpty then [] else [acc]
  | c :: rest, acc =>
    if c.isWhitespace then
      if acc.isEmpty then goFieldsAux rest [] else acc :: goFieldsAux rest []
    else goFieldsAux rest (acc ++ [c])

/-- Model of `strings.Fields`. -/
def goFields (l : GoStr) : List GoStr := goFieldsAux l []

/-- Model of `strings.SplitN(s, sep, 2)` for a single-char separator:
returns the part before the first occurrence and, when the separator
occurs, the rest. -/
def splitFirst (sep : Char) : GoStr → GoStr × Option GoStr
  | [] => ([], none)
  | c :: rest =>
    if c = sep then ([], some rest)
    else
      let (pre, post) := splitFirst sep rest
      (c :: pre, post)

/-- Model of `strings.Trim(s, quote)`: remove all leading and trailing
double-quote characters. -/
def trimQuotes (l : GoStr) : GoStr :=
  ((l.dropWhile (· = '"')).reverse.dropWhile (· = '"')).reverse

/-- Go map assignment `m[k] = v` on an association list: overwrite the
existing entry for `k`, or append a new one. -/
def insertAssoc {α β : Type} [DecidableEq α] (l : List (α × β)) (k : α) (v : β) :
    List (α × β) :=
  match l with
  | [] => [(k, v)]
  | (k', v') :: rest =>
    if k' = k then (k, v) :: rest else (k', v') :: insertAssoc rest k v

/-- Association-list lookup, modelling a Go map read. -/
def lookupAssoc {α β : Type} [DecidableEq α] (l : List (α × β)) (k : α) : Option β :=
  match l with
  | [] => none
  | (k', v) :: rest => if k' = k then some v else lookupAssoc rest k

end OMModule

namespace OMModule

/-! ## Health-check collector (`health_collector.go`) -/

/-- `HealthStatus` from `health_collector.go`. -/
inductive HealthStatus where
  | up | down | unknown | degraded
deriving DecidableEq, Repr

/-- `ComponentHealth` from `health_collector.go`, restricted to the
fields mutated by `updateComponentHealth`.  `SuccessRate` is a Go
`float64`, modelled exactly over `ℚ`; the counters are Go `int`,
modelled as `Int`. -/
structure ComponentHealth where
  status : HealthStatus
  consecutiveFails : Int
  totalChecks : Int
  successRate : ℚ
deriving DecidableEq, Repr

/-- Translation of `HealthCheckCollector.updateComponentHealth`: given
the cached entry for the component (if any) and the freshly probed
`newHealth` record (whose counters arrive zeroed), produce the record
stored back into the cache.  The statement order follows the Go source,
including the reassignment of `TotalChecks` inside the
`existing.Status != HealthStatusDown` branch. -/
def updateComponentHealth (cache : Option ComponentHealth)
    (newHealth : ComponentHealth) : ComponentHealth :=
  match cache with
  | some existing =>
    let tc : Int := existing.totalChecks + 1
    let cf : Int :=
      if newHealth.status = .down then existing.consecutiveFails + 1 else 0
    if tc > 0 then
      let sc : Int := tc - cf
      let sc' : Int :=
        if existing.status ≠ .down then
          tc - cf + existing.totalChecks - existing.consecutiveFails
        else sc
      let tc' : Int :=
        if existing.status ≠ .down then existing.totalChecks + 1 else tc
      { newHealth with
          totalChecks := tc'
          consecutiveFails := cf
          successRate := (sc' : ℚ) / (tc' : ℚ) * 100 }
    else
      { newHealth with totalChecks := tc, consecutiveFails := cf }
  | none =>
    if newHealth.status = .down then
      { newHealth with totalChecks := 1, consecutiveFails := 1, successRate := 0 }
    else
      { newHealth with totalChecks := 1, consecutiveFails := 0, successRate := 100 }

/-- The record produced by `performHealthCheck` before
`updateComponentHealth` runs: status `up` on a successful probe, `down`
on a failed one, counters zeroed. -/
def probeResult (ok : Bool) : ComponentHealth :=
  { status := if ok then .up else .down
    consecutiveFails := 0
    totalChecks := 0
    successRate := 0 }

/-- Cache entry for one component after a sequence of probes
(`true` = success), starting from an empty cache. -/
def runProbes (probes : List Bool) : Option ComponentHealth :=
  probes.foldl (fun c ok => some (updateComponentHealth c (probeResult ok))) none

end OMModule

namespace OMModule

/-! ## Metric exposition parser (`orchestrator.go`) -/

/-- `OpenGSMetric` from `orchestrator.go`:  a parsed metric record.
`Value` is a Go `float64`, modelled over `ℚ`; `Labels` is a Go map,
modelled as an association list in insertion order. -/
structure OpenGSMetric where
  name : GoStr
  type : GoStr
  help : GoStr
  value : ℚ
  labels : List (GoStr × GoStr)
deriving DecidableEq, Repr

/-- Quote-aware splitting loop inside `parseLabels`: scan characters,
toggling `inQuotes` on every double quote, and cut a new piece at every
comma that is outside quotes (Go appends the accumulated piece even when
it is empty); after the loop the final accumulated piece is kept only
when nonempty. -/
def splitPairsAux : GoStr → Bool → GoStr → List GoStr
  | [], _, acc => if acc.isEmpty then [] else [acc]
  | c :: rest, inQ, acc =>
    if c = '"' then splitPairsAux rest (!inQ) (acc ++ [c])
    else if c = ',' ∧ inQ = false then acc :: splitPairsAux rest inQ []
    else splitPairsAux rest inQ (acc ++ [c])

/-- Second phase of `parseLabels`: `strings.SplitN(pair, "=", 2)`, skip
pairs without an equals sign, trim the key, strip quotes from the value,
and assign into the label map. -/
def parseLabelPair (labels : List (GoStr × GoStr)) (pair : GoStr) :
    List (GoStr × GoStr) :=
  match splitFirst '=' (goTrimSpace pair) with
  | (_, none) => labels
  | (k, some v) => insertAssoc labels (goTrimSpace k) (trimQuotes (goTrimSpace v))

/-- Translation of `RealOpen5GSCollector.parseLabels`.  The Go version
returns `(map, nil)`: it has no failing path, so the model is total. -/
def parseLabels (labelStr : GoStr) : List (GoStr × GoStr) :=
  if labelStr.isEmpty then []
  else (splitPairsAux labelStr false []).foldl parseLabelPair []

/-- Digit-string value, used by the `strconv.ParseFloat` model. -/
def digitsVal : GoStr → Option ℕ
  | [] => none
  | l =>
    if l.all Char.isDigit then
      some (l.foldl (fun n c => 10 * n + (c.toNat - '0'.toNat)) 0)
    else none

/-- Model of `strconv.ParseFloat(s, 64)` restricted to plain decimal
literals (optional sign, integer part, optional fractional part); the
exotic accepted forms (exponents, hex floats, `Inf`, `NaN`) are outside
every input this development evaluates the parser on.  The exact value
is kept in `ℚ`. -/
def parseFloatQ (s : GoStr) : Option ℚ :=
  let (neg, body) :=
    match s with
    | '-' :: r => (true, r)
    | '+' :: r => (false, r)
    | r => (false, r)
  let core : Option ℚ :=
    match splitFirst '.' body with
    | (ip, none) => (digitsVal ip).map (fun n => (n : ℚ))
    | (ip, some fp) =>
      match ip, fp with
      | [], [] => none
      | [], _ => (digitsVal fp).map (fun f => (f : ℚ) / (10 : ℚ) ^ fp.length)
      | _, [] => (digitsVal ip).map (fun n => (n : ℚ))
      | _, _ =>
        match digitsVal ip, digitsVal fp with
        | some n, some f => some ((n : ℚ) + (f : ℚ) / (10 : ℚ) ^ fp.length)
        | _, _ => none
  core.map (fun q => if neg then -q else q)

/-- Translation of `RealOpen5GSCollector.parseMetricLine`: split the
line into fields, parse the numeric value, then split the metric part
into name and brace-delimited label list.  A malformed line yields
`none` (the Go version returns an error, and the caller skips the
line). -/
def parseMetricLine (line : GoStr) (templateMetric : OpenGSMetric) :
    Option OpenGSMetric :=
  match goFields line with
  | [] => none
  | [_] => none
  | metricPart :: valuePart :: _ =>
    match parseFloatQ valuePart with
    | none => none
    | some value =>
      if goContains "\x7b".data metricPart then
        let name := metricPart.takeWhile (· ≠ '{')
        let labelsPart :=
          ((metricPart.dropWhile (· ≠ '{')).drop 1).dropLast
        some { name := name
               type := templateMetric.type
               help := templateMetric.help
               value := value
               labels := parseLabels labelsPart }
      else
        some { name := metricPart
               type := templateMetric.type
               help := templateMetric.help
               value := value
               labels := [] }

/-- Loop body of `RealOpen5GSCollector.parsePrometheusFormat`, with the
input modelled as the list of scanned lines and the running
`currentMetric` template threaded through.  `# HELP` installs a fresh
template (clearing the type), `# TYPE` overwrites the template's type
without comparing names, other `#` lines are skipped, and every
remaining line containing a space is fed to `parseMetricLine`. -/
def parseLinesAux : List GoStr → OpenGSMetric → List OpenGSMetric
  | [], _ => []
  | l :: rest, cur =>
    let line := goTrimSpace l
    if line.isEmpty then parseLinesAux rest cur
    else if goHasPre "# HELP ".data line then
      match splitFirst ' ' (line.drop 7) with
      | (name, some help) =>
        parseLinesAux rest
          { name := name, help := help, type := [], value := 0, labels := [] }
      | (_, none) => parseLinesAux rest cur
    else if goHasPre "# TYPE ".data line then
      match goFields (line.drop 7) with
      | _ :: kind :: _ => parseLinesAux rest { cur with type := kind }
      | _ => parseLinesAux rest cur
    else if goHasPre "#".data line then parseLinesAux rest cur
    else if goContains " ".data line then
      match parseMetricLine line cur with
      | some m => m :: parseLinesAux rest cur
      | none => parseLinesAux rest cur
    else parseLinesAux rest cur

/-- Translation of `RealOpen5GSCollector.parsePrometheusFormat`.  On a
pure in-memory body the scanner cannot fail, so the error return of the
Go version is always `nil` here. -/
def parsePrometheusFormat (lines : List GoStr) : List OpenGSMetric :=
  parseLinesAux lines { name := [], type := [], help := [], value := 0, labels := [] }

/-- Modelled from the spec: serialization of a label map "in the
exposition label format with quoted values" (§8), the inverse direction
of the round-trip claim; the repository itself re-exposes labels through
the Prometheus client library, so the plain-text serializer is not in
`src/`. -/
def serializeLabels (l : List (GoStr × GoStr)) : GoStr :=
  match l with
  | [] => []
  | [(k, v)] => k ++ '=' :: '"' :: v ++ ['"']
  | (k, v) :: rest => k ++ '=' :: '"' :: v ++ '"' :: ',' :: serializeLabels rest

/-! ## Fetch-reexpose collector state (`orchestrator.go`) -/

/-- Mutable state of a `RealOpen5GSCollector` touched by
`fetchAndParseMetrics`: the gauge registry (`realMetrics`, name to
label-vector-keyed values), the counter registry (`realCounters`),
`lastUpdate` (a timestamp, `none` for the zero `time.Time`), and
`lastFetchError`. -/
structure RocState where
  realMetrics : List (GoStr × List (List GoStr × ℚ))
  realCounters : List (GoStr × List (List GoStr × ℚ))
  lastUpdate : Option ℕ
  lastFetchError : Option GoStr
deriving DecidableEq, Repr

/-- Outcome of the bounded-timeout GET in `fetchAndParseMetrics`.
`netErr` is a transport failure; `resp` carries the status code, the
scanned body lines, and whether the body reader failed mid-scan (the
only way `parsePrometheusFormat` returns an error). -/
inductive FetchOutcome where
  | netErr
  | resp (statusCode : ℕ) (bodyLines : List GoStr) (readErr : Bool)
deriving DecidableEq, Repr

/-- One metric's effect in `updateInternalMetrics`: build the label
vector (the two implicit labels first — the Go source passes
`string(roc.nfType)` for both — then the metric's own label values),
then register/update a gauge child for `"gauge"`, touch a counter child
with `Add(0)` for `"counter"`, and ignore other types. -/
def applyMetric (nfType : GoStr) (s : RocState) (m : OpenGSMetric) : RocState :=
  let labelValues := nfType :: nfType :: m.labels.map (·.2)
  if m.type = "gauge".data then
    let series := (lookupAssoc s.realMetrics m.name).getD []
    { s with realMetrics :=
        insertAssoc s.realMetrics m.name (insertAssoc series labelValues m.value) }
  else if m.type = "counter".data then
    let series := (lookupAssoc s.realCounters m.name).getD []
    let series' :=
      match lookupAssoc series labelValues with
      | some v => insertAssoc series labelValues (v + 0)
      | none => insertAssoc series labelValues 0
    { s with realCounters := insertAssoc s.realCounters m.name series' }
  else s

/-- Translation of `RealOpen5GSCollector.updateInternalMetrics`. -/
def updateInternalMetrics (nfType : GoStr) (s : RocState)
    (fetchedMetrics : List OpenGSMetric) : RocState :=
  fetchedMetrics.foldl (applyMetric nfType) s

/-- Translation of `RealOpen5GSCollector.fetchAndParseMetrics`: each
early-return failure path records its error and leaves the rest of the
state alone; only the success path folds the parsed metrics into the
registry and refreshes `lastUpdate` and clears `lastFetchError`. -/
def fetchAndParseMetrics (nfType componentIP : GoStr)
    (outcome : FetchOutcome) (now : ℕ) (s : RocState) : RocState :=
  if componentIP.isEmpty then
    { s with lastFetchError := some "component IP not configured".data }
  else
    match outcome with
    | .netErr => { s with lastFetchError := some "failed to fetch from Open5GS".data }
    | .resp code body readErr =>
      if code ≠ 200 then
        { s with lastFetchError := some "Open5GS returned status".data }
      else if readErr then
        { s with lastFetchError := some "failed to parse metrics".data }
      else
        let s' := updateInternalMetrics nfType s (parsePrometheusFormat body)
        { s' with lastUpdate := some now, lastFetchError := none }

/-! ## Container resource sampler (`container_collector.go`) -/

/-- `cpuStats` from `container_collector.go`: the previous CPU sample
stored per component (`uint64`/`uint32` counters, modelled as `ℕ`; the
guarded subtractions below never wrap). -/
structure CpuSample where
  totalUsage : ℕ
  systemUsage : ℕ
  onlineCPUs : ℕ
deriving DecidableEq, Repr

/-- CPU-percent part of
`ContainerMetricsCollector.extractCPUStats`: given the stored previous
sample for this component (if any) and the freshly extracted counters,
the computed `stats.CPUPercent` (`float64`, modelled over `ℚ`).  When
no delta is computable the field keeps its zero initialisation. -/
def extractCPUStats (prev : Option CpuSample) (c : CpuSample) : ℚ :=
  match prev with
  | none => 0
  | some p =>
    if c.systemUsage > p.systemUsage ∧ c.totalUsage > p.totalUsage then
      let cpuDelta : ℚ := ((c.totalUsage - p.totalUsage : ℕ) : ℚ)
      let systemDelta : ℚ := ((c.systemUsage - p.systemUsage : ℕ) : ℚ)
      if systemDelta > 0 then
        let numCPUs : ℚ := if (c.onlineCPUs : ℚ) = 0 then 1 else (c.onlineCPUs : ℚ)
        cpuDelta / systemDelta * numCPUs * 100
      else 0
    else 0

/-! ## Collector lifecycle manager (`CollectorManager`) -/

/-- `NFType` from `orchestrator.go`; the empty-string "no match" result
of `detectNFType` is modelled as `Option NFType`. -/
inductive NFType where
  | amf | smf | pcf | upf | mme | pcrf
deriving DecidableEq, Repr

/-- The default port assignment built in `NewCollectorManager`. -/
def portMap : NFType → ℕ
  | .amf => 9091
  | .smf => 9092
  | .pcf => 9093
  | .upf => 9094
  | .mme => 9095
  | .pcrf => 9096

/-- The fields of `OfficialEndpointCollector` read by the manager; the
factory `NewOfficialEndpointCollector nfType port` populates exactly
these. -/
structure Collector where
  nfType : NFType
  port : ℕ
deriving DecidableEq, Repr

/-- `discovery.Component`, restricted to the fields the manager reads. -/
structure Component where
  type : GoStr
  isRunning : Bool
deriving DecidableEq, Repr

/-- `discovery.NetworkTopology.Components`, as an association list in
iteration order. -/
structure Topology where
  components : List (GoStr × Component)
deriving DecidableEq, Repr

/-- Mutable state of `CollectorManager`: the `collectors` map and the
set of component names in the `running` map (each Go entry holds a
cancellation function; the model only needs the key set). -/
structure ManagerState where
  collectors : List (GoStr × Collector)
  running : List GoStr
  topology : Option Topology
deriving DecidableEq, Repr

/-- The state built by `NewCollectorManager`. -/
def initManager : ManagerState :=
  { collectors := [], running := [], topology := none }

/-- Lifecycle actions performed during a reconciliation pass: `stop n`
is an invocation of component `n`'s cancellation function, `start`
records the component, NF type and port of a newly launched
collector. -/
inductive Action where
  | stop (name : GoStr)
  | start (name : GoStr) (nfType : NFType) (port : ℕ)
deriving DecidableEq, Repr

/-- Translation of `CollectorManager.detectNFType`: substring matching
on the lowercased component name, then on the component type. -/
def detectNFType (componentName : GoStr) (component : Component) :
    Option NFType :=
  let name := goToLower componentName
  if goContains "amf".data name then some .amf
  else if goContains "smf".data name then some .smf
  else if goContains "pcf".data name then some .pcf
  else if goContains "upf".data name then some .upf
  else if goContains "mme".data name then some .mme
  else if goContains "pcrf".data name then some .pcrf
  else
    let componentType := goToLower component.type
    if goContains "access".data componentType ∨ goContains "mobility".data componentType then
      some .amf
    else if goContains "session".data componentType then some .smf
    else if goContains "policy".data componentType then
      if goContains "5g".data componentType then some .pcf else some .pcrf
    else if goContains "user".data componentType ∨ goContains "plane".data componentType then
      some .upf
    else if goContains "mme".data componentType ∨ goContains "4g".data componentType then
      some .mme
    else none

/-- The `requiredCollectors` map computed at the top of
`UpdateTopology`: every running component with a recognised NF type. -/
def requiredCollectors (t : Topology) : List (GoStr × NFType) :=
  t.components.filterMap fun nc =>
    if nc.2.isRunning then (detectNFType nc.1 nc.2).map (fun ty => (nc.1, ty))
    else none

/-- The port-search loop inside `getAvailablePort`
(`for usedPorts[port] { port++ }`), with an explicit fuel argument; the
fuel passed by `getAvailablePort` is proven sufficient below
(`nextFree_spec`), so the model agrees with the unbounded Go loop. -/
def nextFree (used : List ℕ) : ℕ → ℕ → ℕ
  | 0, p => p
  | fuel + 1, p => if p ∈ used then nextFree used fuel (p + 1) else p

/-- The ports bound by a collector table (the `usedPorts` set of
`getAvailablePort`). -/
def portsOf (collectors : List (GoStr × Collector)) : List ℕ :=
  collectors.map (fun c => c.2.port)

/-- Translation of `CollectorManager.getAvailablePort`: collect the
ports of all live collectors (of every NF type) and walk upward from
the base port of `nfType` until a port is free. -/
def getAvailablePort (collectors : List (GoStr × Collector)) (nfType : NFType) : ℕ :=
  let usedPorts := portsOf collectors
  nextFree usedPorts (usedPorts.length + 1) (portMap nfType)

/-- Modelled from the spec: the port-assignment rule as the claim
states it, skipping only ports "already in use by a live collector of
the same type" — to be compared against `getAvailablePort`, which skips
ports of collectors of every type. -/
def getAvailablePortSameType (collectors : List (GoStr × Collector))
    (nfType : NFType) : ℕ :=
  let usedPorts :=
    (collectors.filter (fun c => c.2.nfType = nfType)).map (fun c => c.2.port)
  nextFree usedPorts (usedPorts.length + 1) (portMap nfType)

/-- The "stop collectors that are no longer needed" loop of
`UpdateTopology`: every entry of `running` whose name is not required
has its cancellation invoked and is deleted from both `running` and
`collectors`. -/
def stopPhase (req : List (GoStr × NFType)) (s : ManagerState) :
    ManagerState × List Action :=
  let keep : GoStr → Bool := fun n => (lookupAssoc req n).isSome
  ({ s with
      running := s.running.filter keep
      collectors := s.collectors.filter (fun c => !(c.1 ∈ s.running ∧ keep c.1 = false)) },
   (s.running.filter (fun n => keep n = false)).map Action.stop)

/-- The "start new collectors" loop of `UpdateTopology` together with
`startCollector`: for every required component with no running entry,
assign a port, create the collector through the factory, and record
collector and cancellation handle.  `portMap` is total on `NFType`, so
the Go error path for a missing port mapping is unreachable. -/
def startLoop : List (GoStr × NFType) → ManagerState → ManagerState × List Action
  | [], s => (s, [])
  | (n, ty) :: rest, s =>
    if n ∈ s.running then startLoop rest s
    else
      let adjustedPort := getAvailablePort s.collectors ty
      let s' : ManagerState :=
        { s with
            collectors := insertAssoc s.collectors n ⟨ty, adjustedPort⟩
            running := s.running ++ [n] }
      ((startLoop rest s').1, Action.start n ty adjustedPort :: (startLoop rest s').2)

/-- Translation of `CollectorManager.UpdateTopology`: store the
topology, compute the required collectors, stop the stale ones, start
the missing ones.  The returned action list records the cancellations
and starts performed, in order. -/
def updateTopology (s : ManagerState) (t : Topology) : ManagerState × List Action :=
  let s0 : ManagerState := { s with topology := some t }
  let req := requiredCollectors t
  ((startLoop req (stopPhase req s0).1).1,
   (stopPhase req s0).2 ++ (startLoop req (stopPhase req s0).1).2)

/-- Iterated reconciliation from the freshly constructed manager. -/
def runTopologies (ts : List Topology) : ManagerState :=
  ts.foldl (fun s t => (updateTopology s t).1) initManager

/-! ## Valid exposition-format inputs

The testable property for the parser quantifies over "valid
exposition-format inputs".  A valid input is modelled as a list of
structured lines — help, type, comment, sample, or blank — rendered to
text, with the side conditions that make a line well-formed exposition
format (names are nonempty and whitespace-free, sample values are
parseable decimals, label data stays out of the quoting machinery's
way). -/

/-- A character list with no whitespace characters. -/
def NoWs (l : GoStr) : Prop := ∀ c ∈ l, c.isWhitespace = false

instance (l : GoStr) : Decidable (NoWs l) :=
  decidable_of_iff (∀ c ∈ l, c.isWhitespace = false) Iff.rfl

/-- A character list whose first and last characters (when present)
are not whitespace, so `strings.TrimSpace` leaves it unchanged. -/
def EdgeClean (l : GoStr) : Prop :=
  l.head?.all (fun c => !c.isWhitespace) = true ∧
  l.getLast?.all (fun c => !c.isWhitespace) = true

instance (l : GoStr) : Decidable (EdgeClean l) :=
  decidable_of_iff (l.head?.all (fun c => !c.isWhitespace) = true ∧
    l.getLast?.all (fun c => !c.isWhitespace) = true) Iff.rfl

/-- A label key that the exposition label format can carry verbatim: no
quote, comma or equals sign, and no surrounding whitespace (both ends
survive `strings.TrimSpace`). -/
def GoodKey (k : GoStr) : Prop := '"' ∉ k ∧ ',' ∉ k ∧ '=' ∉ k ∧ EdgeClean k

instance (k : GoStr) : Decidable (GoodKey k) :=
  decidable_of_iff ('"' ∉ k ∧ ',' ∉ k ∧ '=' ∉ k ∧ EdgeClean k) Iff.rfl

/-- A label value the quoting machinery keeps intact: it contains no
double quote (commas, spaces and equals signs are fine inside the
quotes). -/
def GoodVal (v : GoStr) : Prop := '"' ∉ v

instance (v : GoStr) : Decidable (GoodVal v) :=
  decidable_of_iff ('"' ∉ v) Iff.rfl

/-- One label rendered in exposition format: `key="value"`. -/
def pairStr (kv : GoStr × GoStr) : GoStr :=
  kv.1 ++ '=' :: '"' :: kv.2 ++ ['"']

/-- Structured form of one line of exposition-format input. -/
inductive ExpLine where
  | blank
  | helpL (name help : GoStr)
  | typeL (name kind : GoStr)
  | commentL (text : GoStr)
  | sampleL (name : GoStr) (labels : List (GoStr × GoStr)) (valueStr : GoStr)
deriving DecidableEq, Repr

/-- Render a structured line to its exposition-format text. -/
def renderLine : ExpLine → GoStr
  | .blank => []
  | .helpL n h => "# HELP ".data ++ n ++ ' ' :: h
  | .typeL n k => "# TYPE ".data ++ n ++ ' ' :: k
  | .commentL t => '#' :: t
  | .sampleL n ls v =>
    n ++ (if ls.isEmpty then [] else '{' :: serializeLabels ls ++ ['}']) ++ ' ' :: v

/-- Well-formedness of one structured line. -/
def ValidExpLine : ExpLine → Prop
  | .blank => True
  | .helpL n h => n ≠ [] ∧ NoWs n ∧ h ≠ [] ∧
      h.getLast?.all (fun c => !c.isWhitespace) = true
  | .typeL n k => n ≠ [] ∧ NoWs n ∧ k ≠ [] ∧ NoWs k
  | .commentL t =>
      t.getLast?.all (fun c => !c.isWhitespace) = true ∧
      goHasPre " HELP ".data t = false ∧ goHasPre " TYPE ".data t = false
  | .sampleL n ls v => n ≠ [] ∧ NoWs n ∧ n.head?.all (fun c => !(c == '#')) = true ∧
      (∀ p ∈ ls, NoWs p.1 ∧ NoWs p.2) ∧
      v ≠ [] ∧ NoWs v ∧ (parseFloatQ v).isSome = true

instance : (e : ExpLine) → Decidable (ValidExpLine e)
  | .blank => decidable_of_iff True Iff.rfl
  | .helpL n h =>
    decidable_of_iff (n ≠ [] ∧ NoWs n ∧ h ≠ [] ∧
      h.getLast?.all (fun c => !c.isWhitespace) = true) Iff.rfl
  | .typeL n k => decidable_of_iff (n ≠ [] ∧ NoWs n ∧ k ≠ [] ∧ NoWs k) Iff.rfl
  | .commentL t =>
    decidable_of_iff (t.getLast?.all (fun c => !c.isWhitespace) = true ∧
      goHasPre " HELP ".data t = false ∧ goHasPre " TYPE ".data t = false) Iff.rfl
  | .sampleL n ls v =>
    decidable_of_iff (n ≠ [] ∧ NoWs n ∧ n.head?.all (fun c => !(c == '#')) = true ∧
      (∀ p ∈ ls, NoWs p.1 ∧ NoWs p.2) ∧
      v ≠ [] ∧ NoWs v ∧ (parseFloatQ v).isSome = true) Iff.rfl

/-- Is the structured line a sample line? -/
def isSampleLine : ExpLine → Bool
  | .sampleL _ _ _ => true
  | _ => false

/-- The kinds the spec assigns to the emitted metrics, one entry per
sample line: the template's type, where a `# TYPE` line overwrites the
running type (for any metric name) and a `# HELP` line clears it. -/
def specKinds : List ExpLine → GoStr → List GoStr
  | [], _ => []
  | .blank :: r, t => specKinds r t
  | .helpL _ _ :: r, _ => specKinds r []
  | .typeL _ k :: r, _ => specKinds r k
  | .commentL _ :: r, t => specKinds r t
  | .sampleL _ _ _ :: r, t => t :: specKinds r t

/-- The failure modes of one fetch cycle named by the spec: transport
error, non-2xx status, or a parse (reader) error. -/
def fetchFailureOutcome : FetchOutcome → Prop
  | .netErr => True
  | .resp code _ readErr => code ≠ 200 ∨ readErr = true

end OMModule

namespace OMModule

/-! ## General helper lemmas -/

theorem dropWhile_eq_self_of_head (p : Char → Bool) (l : GoStr)
    (h : ∀ c, l.head? = some c → p c = false) : l.dropWhile p = l := by
  cases l with
  | nil => rfl
  | cons c cs => simp [List.dropWhile_cons, h c rfl]

theorem goTrimSpace_eq_self (l : GoStr) (h : EdgeClean l) : goTrimSpace l = l := by
  have hinner : List.dropWhile Char.isWhitespace l = l :=
    dropWhile_eq_self_of_head _ l (by
      intro c hc
      have h1 := h.1
      rw [hc] at h1
      simpa using h1)
  have houter : List.dropWhile Char.isWhitespace l.reverse = l.reverse :=
    dropWhile_eq_self_of_head _ l.reverse (by
      intro c hc
      rw [List.head?_reverse] at hc
      have h2 := h.2
      rw [hc] at h2
      simpa using h2)
  unfold goTrimSpace goTrimLeft
  rw [hinner, houter, List.reverse_reverse]

theorem goHasPre_refl_append (p rest : GoStr) : goHasPre p (p ++ rest) = true := by
  induction p with
  | nil => rfl
  | cons c cs ih => simp [goHasPre, ih]

theorem goHasPre_false_of_head (p : GoStr) (c : Char) (l : GoStr) (hd : Char)
    (hne : hd ≠ c) : goHasPre (c :: p) (hd :: l) = false := by
  have h2 : c ≠ hd := fun hh => hne hh.symm
  simp [goHasPre, h2]

theorem goContains_singleton (c : Char) (l : GoStr) (h : c ∈ l) :
    goContains [c] l = true := by
  induction l with
  | nil => cases h
  | cons x xs ih =>
    rcases List.mem_cons.mp h with h | h
    · simp [goContains, goHasPre, h]
    · simp [goContains, ih h]

theorem goContains_singleton_false (c : Char) (l : GoStr) (h : c ∉ l) :
    goContains [c] l = false := by
  induction l with
  | nil => rfl
  | cons x xs ih =>
    have hxc : ¬(c = x) := fun hh => h (hh ▸ List.mem_cons_self x xs)
    simp only [goContains, goHasPre, Bool.or_eq_false_iff]
    constructor
    · simp [hxc]
    · exact ih (fun hm => h (List.mem_cons_of_mem x hm))

theorem splitFirst_append (sep : Char) (n h : GoStr) (hn : ∀ c ∈ n, c ≠ sep) :
    splitFirst sep (n ++ sep :: h) = (n, some h) := by
  induction n with
  | nil => simp [splitFirst]
  | cons c cs ih =>
    have hc : c ≠ sep := hn c (List.mem_cons_self c cs)
    have ih' := ih (fun x hx => hn x (List.mem_cons_of_mem c hx))
    simp only [List.cons_append, splitFirst, if_neg hc, List.append_eq, ih']

theorem lookupAssoc_none_iff {β : Type} (l : List (GoStr × β)) (k : GoStr) :
    lookupAssoc l k = none ↔ ∀ v, (k, v) ∉ l := by
  induction l with
  | nil => simp [lookupAssoc]
  | cons e rest ih =>
    obtain ⟨k', v'⟩ := e
    by_cases hk : k' = k
    · subst hk
      simp only [lookupAssoc, if_pos rfl]
      constructor
      · intro h; exact absurd h (by simp)
      · intro h; exact absurd (List.mem_cons_self (k', v') rest) (h v')
    · simp only [lookupAssoc, if_neg hk, ih, List.mem_cons]
      constructor
      · rintro h v (hv | hv)
        · exact hk (congrArg Prod.fst hv).symm
        · exact h v hv
      · intro h v hv
        exact h v (Or.inr hv)

theorem lookupAssoc_isSome_of_mem {β : Type} (l : List (GoStr × β)) (k : GoStr)
    (v : β) (h : (k, v) ∈ l) : (lookupAssoc l k).isSome := by
  induction l with
  | nil => cases h
  | cons e rest ih =>
    obtain ⟨k', v'⟩ := e
    by_cases hk : k' = k
    · simp [lookupAssoc, hk]
    · rcases List.mem_cons.mp h with h | h
      · exact absurd (congrArg Prod.fst h).symm hk
      · simpa [lookupAssoc, hk] using ih h

theorem lookupAssoc_insert_ne {α β : Type} [DecidableEq α]
    (l : List (α × β)) (k n : α) (v : β) (h : k ≠ n) :
    lookupAssoc (insertAssoc l k v) n = lookupAssoc l n := by
  induction l with
  | nil => simp [insertAssoc, lookupAssoc, h]
  | cons e rest ih =>
    obtain ⟨k', v'⟩ := e
    by_cases hk : k' = k
    · subst hk
      simp [insertAssoc, lookupAssoc, h]
    · simp [insertAssoc, hk, lookupAssoc, ih]

/-! ## Health-cache claims -/

theorem health_first_success :
    updateComponentHealth none (probeResult true) =
      { status := .up, consecutiveFails := 0, totalChecks := 1, successRate := 100 } := by
  simp [updateComponentHealth, probeResult]

theorem health_second_success :
    updateComponentHealth
        (some { status := .up, consecutiveFails := 0, totalChecks := 1, successRate := 100 })
        (probeResult true) =
      { status := .up, consecutiveFails := 0, totalChecks := 2, successRate := 150 } := by
  simp [updateComponentHealth, probeResult]
  norm_num

/-- C1: the spec claims the cached success rate after `n` probes with
`k` failures is `(n-k)/n × 100`; for the sequence success, success
(`n = 2`, `k = 0`) that formula gives `100`, but the code stores `150`:
the `existing.Status != HealthStatusDown` branch of
`updateComponentHealth` adds the previous successful-check count in
again on top of the already-complete `TotalChecks - ConsecutiveFails`
term. -/
theorem updateComponentHealth_rate_after_two_successes :
    (runProbes [true, true]).map (·.successRate) = some 150 ∧
    ((2 : ℚ) - 0) / 2 * 100 = 100 := by
  constructor
  · simp [runProbes, health_first_success, health_second_success]
  · norm_num

/-- C9: the spec states the invariant `0 ≤ successRate ≤ 100`; the
cached rate after two successful probes is `150`, violating the upper
bound. -/
theorem updateComponentHealth_rate_exceeds_hundred :
    (runProbes [true, true]).map (·.successRate) = some 150 ∧
    ¬ ((150 : ℚ) ≤ 100) := by
  constructor
  · simp [runProbes, health_first_success, health_second_success]
  · norm_num

/-! ## Resource-sampler claims -/

/-- C6 (amended): the computed CPU percent is always non-negative, the
first sample for a component yields `0`, and a subsequent sample with
strictly increasing counters and a positive `onlineCPUs` count yields
exactly `(Δtotal / Δsystem) × onlineCPUs × 100`.  (When `onlineCPUs`
is reported as `0` the code substitutes the fallback factor `1`, which
is the sole deviation from the claim as stated.) -/
theorem extractCPUStats_spec :
    (∀ c, extractCPUStats none c = 0) ∧
    (∀ pr c, 0 ≤ extractCPUStats pr c) ∧
    (∀ p c, p.systemUsage < c.systemUsage → p.totalUsage < c.totalUsage →
      1 ≤ c.onlineCPUs →
      extractCPUStats (some p) c =
        ((c.totalUsage - p.totalUsage : ℕ) : ℚ) /
          ((c.systemUsage - p.systemUsage : ℕ) : ℚ) * (c.onlineCPUs : ℚ) * 100) := by
  refine ⟨fun c => rfl, ?_, ?_⟩
  · intro pr c
    cases pr with
    | none => simp [extractCPUStats]
    | some p =>
      simp only [extractCPUStats]
      split
      · split
        · have h1 : (0 : ℚ) ≤ ((c.totalUsage - p.totalUsage : ℕ) : ℚ) := by positivity

          have h2 : (0 : ℚ) ≤ ((c.systemUsage - p.systemUsage : ℕ) : ℚ) := by positivity
          have h3 : (0 : ℚ) ≤
              (if ((c.onlineCPUs : ℚ)) = 0 then (1 : ℚ) else (c.onlineCPUs : ℚ)) := by
            split
            · norm_num
            · positivity
          positivity
        · exact le_rfl
      · exact le_rfl
  · intro p c hs ht hcpu
    have hgt : c.systemUsage > p.systemUsage ∧ c.totalUsage > p.totalUsage := ⟨hs, ht⟩
    simp only [extractCPUStats, if_pos hgt]
    have hsd : (0 : ℚ) < ((c.systemUsage - p.systemUsage : ℕ) : ℚ) := by
      have : 0 < c.systemUsage - p.systemUsage := Nat.sub_pos_of_lt hs
      exact_mod_cast this
    rw [if_pos hsd]
    have hnz : ¬ ((c.onlineCPUs : ℚ) = 0) := by
      have : (0 : ℚ) < (c.onlineCPUs : ℚ) := by exact_mod_cast hcpu
      exact ne_of_gt this
    rw [if_neg hnz]

/-- Witness for the CPU-percent theorem at a concrete increasing
sample pair. -/
theorem extractCPUStats_spec_witness :
    extractCPUStats (some ⟨0, 0, 1⟩) ⟨2, 4, 1⟩ = 50 := by
  have h := extractCPUStats_spec.2.2 ⟨0, 0, 1⟩ ⟨2, 4, 1⟩
    (by norm_num) (by norm_num) (by norm_num)
  rw [h]; norm_num

/-- C6 counterexample to the claim as stated: with `onlineCPUs = 0`
and strictly increasing counters, the claimed formula
`(Δtotal / Δsystem) × onlineCPUs × 100` evaluates to `0`, but the code
substitutes the fallback factor `1` and produces `50`. -/
theorem extractCPUStats_onlineCPUs_zero :
    extractCPUStats (some ⟨0, 0, 0⟩) ⟨1, 2, 0⟩ = 50 ∧
    ((1 : ℚ) - 0) / ((2 : ℚ) - 0) * 0 * 100 = 0 ∧ (50 : ℚ) ≠ 0 := by
  refine ⟨?_, by norm_num, by norm_num⟩
  simp only [extractCPUStats]
  norm_num

/-! ## Fetch-reexpose failure-path claim -/

/-- C5: a failed fetch cycle (transport error, non-2xx status, or
body-read/parse failure) records an error in `lastFetchError` and
leaves the gauge registry, the counter registry, and `lastUpdate`
exactly as they were. -/
theorem fetchAndParseMetrics_failure_preserves_state
    (nfType componentIP : GoStr) (outcome : FetchOutcome) (now : ℕ) (s : RocState)
    (hfail : fetchFailureOutcome outcome) :
    (fetchAndParseMetrics nfType componentIP outcome now s).realMetrics = s.realMetrics ∧
    (fetchAndParseMetrics nfType componentIP outcome now s).realCounters = s.realCounters ∧
    (fetchAndParseMetrics nfType componentIP outcome now s).lastUpdate = s.lastUpdate ∧
    (fetchAndParseMetrics nfType componentIP outcome now s).lastFetchError.isSome := by
  by_cases hip : componentIP.isEmpty
  · simp [fetchAndParseMetrics, hip]
  · cases outcome with
    | netErr => simp [fetchAndParseMetrics, hip]
    | resp code body readErr =>
      rcases hfail with hcode | hread
      · simp [fetchAndParseMetrics, hip, hcode]
      · by_cases hcode : code = 200
        · subst hcode hread
          simp [fetchAndParseMetrics, hip]
        · simp [fetchAndParseMetrics, hip, hcode]

/-- Witness for the failure-preservation theorem: a network error on a
collector that already holds one gauge series. -/
theorem fetchAndParseMetrics_failure_witness :
    fetchFailureOutcome FetchOutcome.netErr ∧
    ((fetchAndParseMetrics "amf".data "10.0.0.5".data FetchOutcome.netErr 7
        ⟨[("m".data, [(["a".data], 3)])], [], some 4, none⟩).realMetrics =
      [("m".data, [(["a".data], 3)])] ∧
     (fetchAndParseMetrics "amf".data "10.0.0.5".data FetchOutcome.netErr 7
        ⟨[("m".data, [(["a".data], 3)])], [], some 4, none⟩).realCounters = [] ∧
     (fetchAndParseMetrics "amf".data "10.0.0.5".data FetchOutcome.netErr 7
        ⟨[("m".data, [(["a".data], 3)])], [], some 4, none⟩).lastUpdate = some 4 ∧
     (fetchAndParseMetrics "amf".data "10.0.0.5".data FetchOutcome.netErr 7
        ⟨[("m".data, [(["a".data], 3)])], [], some 4, none⟩).lastFetchError.isSome) :=
  ⟨trivial,
   fetchAndParseMetrics_failure_preserves_state "amf".data "10.0.0.5".data
     FetchOutcome.netErr 7 ⟨[("m".data, [(["a".data], 3)])], [], some 4, none⟩ trivial⟩

/-! ## Collector-manager lemmas -/

theorem startLoop_running_mono (req : List (GoStr × NFType)) (s : ManagerState)
    (n : GoStr) (h : n ∈ s.running) : n ∈ (startLoop req s).1.running := by
  induction req generalizing s with
  | nil => exact h
  | cons e rest ih =>
    obtain ⟨m, ty⟩ := e
    by_cases hm : m ∈ s.running
    · simp only [startLoop, if_pos hm]
      exact ih s h
    · simp only [startLoop, if_neg hm]
      exact ih _ (by simp [h])

theorem startLoop_running_of_req (req : List (GoStr × NFType)) (s : ManagerState)
    (n : GoStr) (ty : NFType) (h : (n, ty) ∈ req) :
    n ∈ (startLoop req s).1.running := by
  induction req generalizing s with
  | nil => cases h
  | cons e rest ih =>
    obtain ⟨m, ty'⟩ := e
    rcases List.mem_cons.mp h with h | h
    · have hn : n = m := (Prod.mk.injEq n ty m ty').mp h |>.1
      subst hn
      by_cases hm : n ∈ s.running
      · simp only [startLoop, if_pos hm]
        exact startLoop_running_mono rest s n hm
      · simp only [startLoop, if_neg hm]
        exact startLoop_running_mono rest _ n (by simp)
    · by_cases hm : m ∈ s.running
      · simp only [startLoop, if_pos hm]
        exact ih s h
      · simp only [startLoop, if_neg hm]
        exact ih _ h

theorem startLoop_running_src (req : List (GoStr × NFType)) (s : ManagerState)
    (n : GoStr) (h : n ∈ (startLoop req s).1.running) :
    n ∈ s.running ∨ ∃ ty, (n, ty) ∈ req := by
  induction req generalizing s with
  | nil => exact Or.inl h
  | cons e rest ih =>
    obtain ⟨m, ty'⟩ := e
    by_cases hm : m ∈ s.running
    · simp only [startLoop, if_pos hm] at h
      rcases ih s h with h | ⟨ty, hty⟩
      · exact Or.inl h
      · exact Or.inr ⟨ty, List.mem_cons_of_mem _ hty⟩
    · simp only [startLoop, if_neg hm] at h
      rcases ih _ h with h | ⟨ty, hty⟩
      · rcases List.mem_append.mp h with h | h
        · exact Or.inl h
        · rcases List.mem_singleton.mp h with rfl
          exact Or.inr ⟨ty', List.mem_cons_self _ _⟩
      · exact Or.inr ⟨ty, List.mem_cons_of_mem _ hty⟩

theorem startLoop_skip_all (req : List (GoStr × NFType)) (s : ManagerState)
    (h : ∀ p ∈ req, p.1 ∈ s.running) : startLoop req s = (s, []) := by
  induction req with
  | nil => rfl
  | cons e rest ih =>
    obtain ⟨m, ty⟩ := e
    have hm : m ∈ s.running := h (m, ty) (List.mem_cons_self _ _)
    simp only [startLoop, if_pos hm]
    exact ih (fun p hp => h p (List.mem_cons_of_mem _ hp))

theorem startLoop_lookup_not_req (req : List (GoStr × NFType)) (s : ManagerState)
    (n : GoStr) (hn : ∀ ty, (n, ty) ∉ req) :
    lookupAssoc (startLoop req s).1.collectors n = lookupAssoc s.collectors n := by
  induction req generalizing s with
  | nil => rfl
  | cons e rest ih =>
    obtain ⟨m, ty'⟩ := e
    have hmn : m ≠ n := by
      intro hEq
      exact hn ty' (hEq ▸ List.mem_cons_self (m, ty') rest)
    have hn' : ∀ ty, (n, ty) ∉ rest :=
      fun ty hty => hn ty (List.mem_cons_of_mem _ hty)
    by_cases hm : m ∈ s.running
    · simp only [startLoop, if_pos hm]
      exact ih s hn'
    · simp only [startLoop, if_neg hm]
      rw [ih _ hn']
      exact lookupAssoc_insert_ne _ _ _ _ hmn

theorem startLoop_no_stop (req : List (GoStr × NFType)) (s : ManagerState)
    (n : GoStr) : Action.stop n ∉ (startLoop req s).2 := by
  induction req generalizing s with
  | nil => simp [startLoop]
  | cons e rest ih =>
    obtain ⟨m, ty'⟩ := e
    by_cases hm : m ∈ s.running
    · simp only [startLoop, if_pos hm]
      exact ih s
    · simp only [startLoop, if_neg hm]
      intro hmem
      rcases List.mem_cons.mp hmem with h | h
      · cases h
      · exact ih _ h

theorem startLoop_topology (req : List (GoStr × NFType)) (s : ManagerState) :
    (startLoop req s).1.topology = s.topology := by
  induction req generalizing s with
  | nil => rfl
  | cons e rest ih =>
    obtain ⟨m, ty'⟩ := e
    by_cases hm : m ∈ s.running
    · simp only [startLoop, if_pos hm]
      exact ih s
    · simp only [startLoop, if_neg hm]
      exact ih _

theorem updateTopology_running_isSome (s : ManagerState) (t : Topology)
    (n : GoStr) (h : n ∈ (updateTopology s t).1.running) :
    (lookupAssoc (requiredCollectors t) n).isSome := by
  simp only [updateTopology] at h
  rcases startLoop_running_src _ _ _ h with h | ⟨ty, hty⟩
  · simp only [stopPhase] at h
    exact (List.mem_filter.mp h).2
  · exact lookupAssoc_isSome_of_mem _ _ _ hty

theorem updateTopology_req_running (s : ManagerState) (t : Topology)
    (p : GoStr × NFType) (h : p ∈ requiredCollectors t) :
    p.1 ∈ (updateTopology s t).1.running := by
  simp only [updateTopology]
  exact startLoop_running_of_req _ _ p.1 p.2 h

theorem updateTopology_topology (s : ManagerState) (t : Topology) :
    (updateTopology s t).1.topology = some t := by
  simp only [updateTopology]
  rw [startLoop_topology]
  rfl

theorem stopPhase_of_kept (req : List (GoStr × NFType)) (s : ManagerState)
    (h : ∀ n ∈ s.running, (lookupAssoc req n).isSome) :
    stopPhase req s = (s, []) := by
  have hrun : s.running.filter (fun n => (lookupAssoc req n).isSome) = s.running :=
    List.filter_eq_self.mpr (fun n hn => h n hn)
  have hcol : s.collectors.filter
      (fun c => !(c.1 ∈ s.running ∧ ((lookupAssoc req c.1).isSome) = false)) =
      s.collectors := by
    apply List.filter_eq_self.mpr
    intro c hc
    simp only [Bool.not_eq_true', decide_eq_false_iff_not]
    rintro ⟨h1, h2⟩
    rw [h c.1 h1] at h2
    cases h2
  have hstops : s.running.filter
      (fun n => ((lookupAssoc req n).isSome) = false) = [] := by
    apply List.filter_eq_nil_iff.mpr
    intro n hn
    simp [h n hn]
  simp only [stopPhase, hrun, hcol, hstops, List.map_nil]

/-- C3: reconciliation is idempotent — a second `UpdateTopology` call
with the same topology performs no stop and no start actions and
leaves the manager state (running set, cancellation handles, collector
table) unchanged. -/
theorem updateTopology_idempotent (s : ManagerState) (t : Topology) :
    updateTopology (updateTopology s t).1 t = ((updateTopology s t).1, []) := by
  set s1 := (updateTopology s t).1 with hs1
  have hc : s1.topology = some t := updateTopology_topology s t
  have hs0 : ({ s1 with topology := some t } : ManagerState) = s1 := by
    rw [← hc]
  have hstop : stopPhase (requiredCollectors t) s1 = (s1, []) :=
    stopPhase_of_kept _ _ (fun n hn => updateTopology_running_isSome s t n hn)
  have hstart : startLoop (requiredCollectors t) s1 = (s1, []) :=
    startLoop_skip_all _ _ (fun p hp => updateTopology_req_running s t p hp)
  simp only [updateTopology, hs0, hstop, hstart]
  rfl

/-- C4: a component with a running collector that the next topology no
longer requires has its cancellation invoked exactly once during the
reconciliation (one `stop` action), and afterwards it is present in
neither the `running` map nor the `collectors` map. -/
theorem updateTopology_stops_vanished (s : ManagerState) (t : Topology) (n : GoStr)
    (hnd : s.running.Nodup) (hrun : n ∈ s.running)
    (hreq : lookupAssoc (requiredCollectors t) n = none) :
    (updateTopology s t).2.count (Action.stop n) = 1 ∧
    n ∉ (updateTopology s t).1.running ∧
    lookupAssoc (updateTopology s t).1.collectors n = none := by
  have hnotin : ∀ ty, (n, ty) ∉ requiredCollectors t :=
    fun ty => (lookupAssoc_none_iff _ _).mp hreq ty
  refine ⟨?_, ?_, ?_⟩
  · simp only [updateTopology, List.count_append]
    have hstart0 :
        (startLoop (requiredCollectors t)
          (stopPhase (requiredCollectors t)
            { s with topology := some t }).1).2.count (Action.stop n) = 0 :=
      List.count_eq_zero.mpr (startLoop_no_stop _ _ n)
    rw [hstart0, Nat.add_zero]
    simp only [stopPhase]
    rw [List.count_map_of_injective _ Action.stop
      (fun a b hab => by injection hab)]
    exact List.count_eq_one_of_mem (hnd.filter _)
      (List.mem_filter.mpr ⟨hrun, by simp [hreq]⟩)
  · simp only [updateTopology]
    intro hmem
    rcases startLoop_running_src _ _ _ hmem with h | ⟨ty, hty⟩
    · simp only [stopPhase] at h
      have h2 := (List.mem_filter.mp h).2
      rw [hreq] at h2
      cases h2
    · exact hnotin ty hty
  · simp only [updateTopology]
    rw [startLoop_lookup_not_req _ _ _ hnotin]
    apply (lookupAssoc_none_iff _ _).mpr
    intro v hv
    simp only [stopPhase] at hv
    have hp := (List.mem_filter.mp hv).2
    simp only [Bool.not_eq_true', decide_eq_false_iff_not] at hp
    exact hp ⟨hrun, by simp [hreq]⟩

/-- Witness for the vanished-component theorem: one running `amf1`
collector and an empty next topology. -/
theorem updateTopology_stops_vanished_witness :
    (["amf1".data] : List GoStr).Nodup ∧
    "amf1".data ∈ (["amf1".data] : List GoStr) ∧
    lookupAssoc (requiredCollectors ⟨[]⟩) "amf1".data = none ∧
    ((updateTopology
        ⟨[("amf1".data, ⟨.amf, 9091⟩)], ["amf1".data], none⟩ ⟨[]⟩).2.count
          (Action.stop "amf1".data) = 1 ∧
      "amf1".data ∉ (updateTopology
        ⟨[("amf1".data, ⟨.amf, 9091⟩)], ["amf1".data], none⟩ ⟨[]⟩).1.running ∧
      lookupAssoc (updateTopology
        ⟨[("amf1".data, ⟨.amf, 9091⟩)], ["amf1".data], none⟩ ⟨[]⟩).1.collectors
          "amf1".data = none) :=
  ⟨by decide, by decide, by decide,
   updateTopology_stops_vanished
     ⟨[("amf1".data, ⟨.amf, 9091⟩)], ["amf1".data], none⟩ ⟨[]⟩ "amf1".data
     (by decide) (by decide) (by decide)⟩

/-! ## Port-assignment lemmas -/

theorem filter_ge_succ_length (l : List ℕ) (p : ℕ) (hl : l.Nodup) (hp : p ∈ l) :
    (l.filter (fun q => p ≤ q)).length = (l.filter (fun q => p + 1 ≤ q)).length + 1 := by
  induction l with
  | nil => cases hp
  | cons a l' ih =>
    have hnotin : a ∉ l' := (List.nodup_cons.mp hl).1
    have hnd : l'.Nodup := (List.nodup_cons.mp hl).2
    rcases List.mem_cons.mp hp with hp | hp
    · subst hp
      have h1 : (l'.filter (fun q => p ≤ q)) = (l'.filter (fun q => p + 1 ≤ q)) := by
        apply List.filter_congr
        intro q hq
        have hqp : q ≠ p := fun hh => hnotin (hh ▸ hq)
        simp only [decide_eq_decide]
        omega
      simp only [List.filter_cons, decide_eq_true_eq]
      rw [if_pos (le_refl p), if_neg (by omega)]
      simp [h1]
    · have hap : a ≠ p := fun hh => hnotin (hh ▸ hp)
      by_cases ha : p ≤ a
      · have ha' : p + 1 ≤ a := by omega
        simp only [List.filter_cons, decide_eq_true_eq, if_pos ha, if_pos ha']
        simp [ih hnd hp]
      · have ha' : ¬ (p + 1 ≤ a) := by omega
        simp only [List.filter_cons, decide_eq_true_eq, if_neg ha, if_neg ha']
        exact ih hnd hp

theorem nextFree_go (used : List ℕ) :
    ∀ fuel p, (used.dedup.filter (fun q => p ≤ q)).length < fuel →
      nextFree used fuel p ∉ used ∧ p ≤ nextFree used fuel p ∧
      ∀ q, p ≤ q → q < nextFree used fuel p → q ∈ used := by
  intro fuel
  induction fuel with
  | zero => intro p h; exact absurd h (Nat.not_lt_zero _)
  | succ fuel ih =>
    intro p h
    by_cases hp : p ∈ used
    · simp only [nextFree, if_pos hp]
      have hkey := filter_ge_succ_length used.dedup p (List.nodup_dedup used)
        (List.mem_dedup.mpr hp)
      have hb : (used.dedup.filter (fun q => p + 1 ≤ q)).length < fuel := by omega
      obtain ⟨h1, h2, h3⟩ := ih (p + 1) hb
      refine ⟨h1, by omega, ?_⟩
      intro q hq1 hq2
      by_cases hqp : q = p
      · exact hqp ▸ hp
      · exact h3 q (by omega) hq2
    · simp only [nextFree, if_neg hp]
      exact ⟨hp, le_rfl, fun q h1 h2 => absurd h2 (by omega)⟩

/-- C8 (amended): the port assigned to a newly required component is
the base port for its NF type, incremented past every port already
bound by a live collector of any NF type (the least free port at or
above the base); and the start action emitted for a component absent
from `running` carries exactly `getAvailablePort` of the collector
table at that moment. -/
theorem getAvailablePort_least_free :
    (∀ (collectors : List (GoStr × Collector)) (ty : NFType),
      getAvailablePort collectors ty ∉ portsOf collectors ∧
      portMap ty ≤ getAvailablePort collectors ty ∧
      ∀ q, portMap ty ≤ q → q < getAvailablePort collectors ty →
        q ∈ portsOf collectors) ∧
    (∀ (n : GoStr) (ty : NFType) (rest : List (GoStr × NFType)) (s : ManagerState),
      n ∉ s.running →
      (startLoop ((n, ty) :: rest) s).2.head? =
        some (Action.start n ty (getAvailablePort s.collectors ty))) := by
  constructor
  · intro collectors ty
    have hbound : ((portsOf collectors).dedup.filter
        (fun q => portMap ty ≤ q)).length < (portsOf collectors).length + 1 := by
      have h1 := List.length_filter_le (fun q => portMap ty ≤ q) (portsOf collectors).dedup
      have h2 := (List.dedup_sublist (portsOf collectors)).length_le
      omega
    exact nextFree_go (portsOf collectors) ((portsOf collectors).length + 1)
      (portMap ty) hbound
  · intro n ty rest s hn
    simp [startLoop, if_neg hn]

/-- Witness for the port-assignment theorem: a fresh SMF component
joining a manager that already holds collectors on ports 9092 and
9093. -/
theorem getAvailablePort_least_free_witness :
    (getAvailablePort
        [("a".data, ⟨.smf, 9092⟩), ("b".data, ⟨.pcf, 9093⟩)] NFType.smf ∉
      portsOf [("a".data, ⟨.smf, 9092⟩), ("b".data, ⟨.pcf, 9093⟩)] ∧
     portMap NFType.smf ≤ getAvailablePort
        [("a".data, ⟨.smf, 9092⟩), ("b".data, ⟨.pcf, 9093⟩)] NFType.smf ∧
     ∀ q, portMap NFType.smf ≤ q →
       q < getAvailablePort
         [("a".data, ⟨.smf, 9092⟩), ("b".data, ⟨.pcf, 9093⟩)] NFType.smf →
       q ∈ portsOf [("a".data, ⟨.smf, 9092⟩), ("b".data, ⟨.pcf, 9093⟩)]) ∧
    (¬ ("c".data ∈ ([] : List GoStr)) ∧
     (startLoop [("c".data, NFType.upf)] ⟨[], [], none⟩).2.head? =
       some (Action.start "c".data NFType.upf
         (getAvailablePort ([] : List (GoStr × Collector)) NFType.upf))) :=
  ⟨getAvailablePort_least_free.1
      [("a".data, ⟨.smf, 9092⟩), ("b".data, ⟨.pcf, 9093⟩)] NFType.smf,
   by decide,
   getAvailablePort_least_free.2 "c".data NFType.upf [] ⟨[], [], none⟩ (by decide)⟩

/-- C8 counterexample to the claim as stated: after two AMF components
occupy ports 9091 and 9092, a newly required SMF component is started
on port 9093 — the code skips port 9092 because an AMF collector (a
different NF type) holds it, whereas the claim's same-type rule would
assign the SMF base port 9092. -/
theorem getAvailablePort_crosses_nf_types :
    (updateTopology
        (updateTopology initManager
          ⟨[("amf-1".data, ⟨[], true⟩), ("amf-2".data, ⟨[], true⟩)]⟩).1
        ⟨[("amf-1".data, ⟨[], true⟩), ("amf-2".data, ⟨[], true⟩),
          ("smf-1".data, ⟨[], true⟩)]⟩).2 =
      [Action.start "smf-1".data NFType.smf 9093] ∧
    getAvailablePortSameType
      (updateTopology initManager
        ⟨[("amf-1".data, ⟨[], true⟩), ("amf-2".data, ⟨[], true⟩)]⟩).1.collectors
      NFType.smf = 9092 ∧
    (9093 : ℕ) ≠ 9092 := by
  refine ⟨by decide, by decide, by decide⟩

/-! ## Port-distinctness invariant -/

theorem getAvailablePort_fresh (collectors : List (GoStr × Collector))
    (ty : NFType) : getAvailablePort collectors ty ∉ portsOf collectors := by
  have hbound : ((portsOf collectors).dedup.filter
      (fun q => portMap ty ≤ q)).length < (portsOf collectors).length + 1 := by
    have h1 := List.length_filter_le (fun q => portMap ty ≤ q) (portsOf collectors).dedup
    have h2 := (List.dedup_sublist (portsOf collectors)).length_le
    omega
  exact (nextFree_go (portsOf collectors) ((portsOf collectors).length + 1)
    (portMap ty) hbound).1

theorem portsOf_cons (e : GoStr × Collector) (l : List (GoStr × Collector)) :
    portsOf (e :: l) = e.2.port :: portsOf l := rfl

theorem portsOf_insertAssoc_mem (l : List (GoStr × Collector)) (n : GoStr)
    (v : Collector) (q : ℕ) (h : q ∈ portsOf (insertAssoc l n v)) :
    q ∈ portsOf l ∨ q = v.port := by
  induction l with
  | nil =>
    rcases List.mem_cons.mp h with h | h
    · exact Or.inr h
    · cases h
  | cons e rest ih =>
    obtain ⟨k', v'⟩ := e
    by_cases hk : k' = n
    · rw [show insertAssoc ((k', v') :: rest) n v = (n, v) :: rest by
        simp [insertAssoc, hk], portsOf_cons] at h
      rcases List.mem_cons.mp h with h | h
      · exact Or.inr h
      · exact Or.inl (List.mem_cons_of_mem _ h)
    · rw [show insertAssoc ((k', v') :: rest) n v = (k', v') :: insertAssoc rest n v by
        simp [insertAssoc, hk], portsOf_cons] at h
      rcases List.mem_cons.mp h with h | h
      · exact Or.inl (h ▸ List.mem_cons_self _ _)
      · rcases ih h with h2 | h2
        · exact Or.inl (List.mem_cons_of_mem _ h2)
        · exact Or.inr h2

theorem portsOf_insertAssoc_nodup (l : List (GoStr × Collector)) (n : GoStr)
    (v : Collector) (hnd : (portsOf l).Nodup) (hfresh : v.port ∉ portsOf l) :
    (portsOf (insertAssoc l n v)).Nodup := by
  induction l with
  | nil => simp [insertAssoc, portsOf]
  | cons e rest ih =>
    obtain ⟨k', v'⟩ := e
    rw [portsOf_cons] at hnd hfresh
    have hnd' : (portsOf rest).Nodup := (List.nodup_cons.mp hnd).2
    have hhead : v'.port ∉ portsOf rest := (List.nodup_cons.mp hnd).1
    have hfresh' : v.port ∉ portsOf rest :=
      fun hm => hfresh (List.mem_cons_of_mem _ hm)
    have hvne : v.port ≠ v'.port :=
      fun hm => hfresh (hm ▸ List.mem_cons_self _ _)
    by_cases hk : k' = n
    · rw [show insertAssoc ((k', v') :: rest) n v = (n, v) :: rest by
        simp [insertAssoc, hk], portsOf_cons]
      exact List.nodup_cons.mpr ⟨hfresh', hnd'⟩
    · rw [show insertAssoc ((k', v') :: rest) n v = (k', v') :: insertAssoc rest n v by
        simp [insertAssoc, hk], portsOf_cons]
      apply List.nodup_cons.mpr
      constructor
      · intro hmem
        rcases portsOf_insertAssoc_mem rest n v v'.port hmem with h | h
        · exact hhead h
        · exact hvne h.symm
      · exact ih hnd' hfresh'

theorem startLoop_ports_nodup (req : List (GoStr × NFType)) (s : ManagerState)
    (hnd : (portsOf s.collectors).Nodup) :
    (portsOf (startLoop req s).1.collectors).Nodup := by
  induction req generalizing s with
  | nil => exact hnd
  | cons e rest ih =>
    obtain ⟨m, ty'⟩ := e
    by_cases hm : m ∈ s.running
    · simp only [startLoop, if_pos hm]
      exact ih s hnd
    · simp only [startLoop, if_neg hm]
      exact ih _ (portsOf_insertAssoc_nodup _ _ _ hnd
        (getAvailablePort_fresh s.collectors ty'))

theorem updateTopology_ports_nodup (s : ManagerState) (t : Topology)
    (hnd : (portsOf s.collectors).Nodup) :
    (portsOf (updateTopology s t).1.collectors).Nodup := by
  simp only [updateTopology]
  apply startLoop_ports_nodup
  have hsub : List.Sublist (portsOf ((stopPhase (requiredCollectors t)
      { s with topology := some t }).1.collectors)) (portsOf s.collectors) := by
    simp only [stopPhase, portsOf]
    exact (List.filter_sublist _).map _
  exact hsub.nodup hnd

/-! ## Label round-trip lemmas -/

theorem splitPairsAux_cons_other (c : Char) (hq : c ≠ '"') (hcm : c ≠ ',')
    (rest : GoStr) (inQ : Bool) (acc : GoStr) :
    splitPairsAux (c :: rest) inQ acc = splitPairsAux rest inQ (acc ++ [c]) := by
  simp only [splitPairsAux, if_neg hq]
  rw [if_neg (by simp [hcm])]

theorem splitPairsAux_cons_quote (rest : GoStr) (inQ : Bool) (acc : GoStr) :
    splitPairsAux ('"' :: rest) inQ acc = splitPairsAux rest (!inQ) (acc ++ ['"']) := by
  simp [splitPairsAux]

theorem splitPairsAux_cons_comma_out (rest acc : GoStr) :
    splitPairsAux (',' :: rest) false acc = acc :: splitPairsAux rest false [] := by
  simp only [splitPairsAux]
  rw [if_neg (by decide), if_pos (by simp)]

theorem splitPairsAux_skip (w : GoStr) (hw : ∀ c ∈ w, c ≠ '"' ∧ c ≠ ',') :
    ∀ rest acc, splitPairsAux (w ++ rest) false acc =
      splitPairsAux rest false (acc ++ w) := by
  induction w with
  | nil => intro rest acc; simp
  | cons c cs ih =>
    intro rest acc
    have hc := hw c (List.mem_cons_self c cs)
    rw [List.cons_append, splitPairsAux_cons_other c hc.1 hc.2]
    rw [ih (fun x hx => hw x (List.mem_cons_of_mem c hx)) rest (acc ++ [c])]
    simp

theorem splitPairsAux_quoted (w : GoStr) (hw : '"' ∉ w) :
    ∀ rest acc, splitPairsAux (w ++ rest) true acc =
      splitPairsAux rest true (acc ++ w) := by
  induction w with
  | nil => intro rest acc; simp
  | cons c cs ih =>
    intro rest acc
    have hc : c ≠ '"' := fun h => hw (h ▸ List.mem_cons_self c cs)
    by_cases hcm : c = ','
    · subst hcm
      simp only [List.cons_append, splitPairsAux, List.append_eq]
      rw [if_neg (by decide), if_neg (by simp)]
      rw [ih (fun hx => hw (List.mem_cons_of_mem _ hx)) rest (acc ++ [','])]
      simp
    · rw [List.cons_append, splitPairsAux_cons_other c hc hcm]
      rw [ih (fun hx => hw (List.mem_cons_of_mem c hx)) rest (acc ++ [c])]
      simp

theorem splitPairsAux_pair (k v : GoStr) (hk : GoodKey k) (hv : GoodVal v) :
    ∀ rest acc, splitPairsAux (pairStr (k, v) ++ rest) false acc =
      splitPairsAux rest false (acc ++ pairStr (k, v)) := by
  intro rest acc
  obtain ⟨hkq, hkc, _, _⟩ := hk
  have h1 : pairStr (k, v) ++ rest = k ++ ('=' :: '"' :: (v ++ ('"' :: rest))) := by
    simp [pairStr]
  rw [h1, splitPairsAux_skip k
    (fun c hc => ⟨fun h => hkq (h ▸ hc), fun h => hkc (h ▸ hc)⟩)]
  rw [splitPairsAux_cons_other '=' (by decide) (by decide)]
  rw [splitPairsAux_cons_quote]
  simp only [Bool.not_false]
  rw [splitPairsAux_quoted v hv]
  rw [splitPairsAux_cons_quote]
  simp only [Bool.not_true]
  simp [pairStr, List.append_assoc]

theorem pairStr_ne_nil (k v : GoStr) : pairStr (k, v) ≠ [] := by
  cases k <;> simp [pairStr]

theorem serializeLabels_single (k v : GoStr) :
    serializeLabels [(k, v)] = pairStr (k, v) := rfl

theorem serializeLabels_cons (k v : GoStr) (rest : List (GoStr × GoStr))
    (h : rest ≠ []) :
    serializeLabels ((k, v) :: rest) = pairStr (k, v) ++ ',' :: serializeLabels rest := by
  cases rest with
  | nil => cases h rfl
  | cons e r => simp [serializeLabels, pairStr, List.append_assoc]

theorem splitPairs_serialize (l : List (GoStr × GoStr))
    (h : ∀ p ∈ l, GoodKey p.1 ∧ GoodVal p.2) (hne : l ≠ []) :
    splitPairsAux (serializeLabels l) false [] = l.map pairStr := by
  induction l with
  | nil => cases hne rfl
  | cons p rest ih =>
    obtain ⟨k, v⟩ := p
    have hgood := h (k, v) (List.mem_cons_self _ _)
    cases rest with
    | nil =>
      rw [serializeLabels_single]
      calc splitPairsAux (pairStr (k, v)) false []
          = splitPairsAux (pairStr (k, v) ++ []) false [] := by simp
        _ = splitPairsAux [] false ([] ++ pairStr (k, v)) :=
            splitPairsAux_pair k v hgood.1 hgood.2 [] []
        _ = [pairStr (k, v)] := by
            simp only [List.nil_append, splitPairsAux]
            rw [if_neg (by simpa using pairStr_ne_nil k v)]
    | cons e r =>
      rw [serializeLabels_cons k v (e :: r) (by simp)]
      rw [splitPairsAux_pair k v hgood.1 hgood.2]
      rw [splitPairsAux_cons_comma_out]
      rw [ih (fun p hp => h p (List.mem_cons_of_mem _ hp)) (by simp)]
      simp

theorem insertAssoc_append_fresh {β : Type} (l : List (GoStr × β)) (k : GoStr)
    (v : β) (h : ∀ e ∈ l, e.1 ≠ k) : insertAssoc l k v = l ++ [(k, v)] := by
  induction l with
  | nil => rfl
  | cons e rest ih =>
    obtain ⟨k', v'⟩ := e
    have hk : k' ≠ k := h (k', v') (List.mem_cons_self _ _)
    simp only [insertAssoc, if_neg hk, List.cons_append]
    rw [ih (fun e he => h e (List.mem_cons_of_mem _ he))]

theorem dropWhile_quote_cons (c : Char) (cs : GoStr) (hc : c ≠ '"') :
    List.dropWhile (fun x => x = '"') (c :: cs) = c :: cs := by
  apply dropWhile_eq_self_of_head
  intro x hx
  injection hx with hx
  subst hx
  simp [hc]

theorem trimQuotes_wrap (v : GoStr) (hv : '"' ∉ v) :
    trimQuotes ('"' :: v ++ ['"']) = v := by
  cases v with
  | nil => decide
  | cons c cs =>
    have hc : c ≠ '"' := fun h => hv (h ▸ List.mem_cons_self c cs)
    unfold trimQuotes
    have h1 : List.dropWhile (fun x => x = '"') ('"' :: (c :: cs) ++ ['"']) =
        (c :: cs) ++ ['"'] := by
      rw [List.cons_append, List.dropWhile_cons]
      rw [if_pos (by simp)]
      rw [show (c :: cs) ++ ['"'] = c :: (cs ++ ['"']) by simp]
      exact dropWhile_quote_cons c (cs ++ ['"']) hc
    rw [h1]
    have h2 : ((c :: cs) ++ ['"']).reverse = '"' :: (c :: cs).reverse := by
      simp
    rw [h2, List.dropWhile_cons, if_pos (by simp)]
    have hlast : ∀ x, (c :: cs).reverse.head? = some x → x ≠ '"' := by
      intro x hx
      rw [List.head?_reverse] at hx
      have hmem : x ∈ c :: cs := List.mem_of_mem_getLast? hx
      exact fun h => hv (h ▸ hmem)
    rw [dropWhile_eq_self_of_head _ _ (by
      intro x hx
      simpa using hlast x hx)]
    exact List.reverse_reverse _

theorem parseLabelPair_pairStr (labels : List (GoStr × GoStr)) (k v : GoStr)
    (hk : GoodKey k) (hv : GoodVal v) (hfresh : ∀ e ∈ labels, e.1 ≠ k) :
    parseLabelPair labels (pairStr (k, v)) = labels ++ [(k, v)] := by
  obtain ⟨hkq, hkc, hke, hkedge⟩ := hk
  have hedge : EdgeClean (pairStr (k, v)) := by
    constructor
    · cases k with
      | nil => simp [pairStr]
      | cons c cs =>
        have := hkedge.1
        simpa [pairStr] using this
    · have hre : pairStr (k, v) = (k ++ '=' :: '"' :: v) ++ ['"'] := by
        simp [pairStr]
      rw [hre, List.getLast?_concat]
      decide
  have hsplit : splitFirst '=' (pairStr (k, v)) = (k, some ('"' :: v ++ ['"'])) := by
    have hre : pairStr (k, v) = k ++ '=' :: ('"' :: v ++ ['"']) := by
      simp [pairStr]
    rw [hre]
    exact splitFirst_append '=' k _ (fun c hc h => hke (h ▸ hc))
  have hvedge : EdgeClean ('"' :: v ++ ['"']) := by
    constructor
    · simp
    · have hre : ('"' :: v ++ ['"'] : GoStr) = ('"' :: v) ++ ['"'] := by simp
      rw [hre, List.getLast?_concat]
      decide
  simp only [parseLabelPair, goTrimSpace_eq_self _ hedge, hsplit]
  rw [goTrimSpace_eq_self k hkedge, goTrimSpace_eq_self _ hvedge,
    trimQuotes_wrap v hv]
  exact insertAssoc_append_fresh labels k v hfresh

theorem foldl_parseLabelPair (l : List (GoStr × GoStr)) :
    ∀ acc, (∀ p ∈ l, GoodKey p.1 ∧ GoodVal p.2) →
      (acc.map Prod.fst ++ l.map Prod.fst).Nodup →
      (l.map pairStr).foldl parseLabelPair acc = acc ++ l := by
  induction l with
  | nil => intro acc _ _; simp
  | cons p rest ih =>
    obtain ⟨k, v⟩ := p
    intro acc hgood hnd
    have hkv := hgood (k, v) (List.mem_cons_self _ _)
    simp only [List.map_cons, List.foldl_cons]
    have hfresh : ∀ e ∈ acc, e.1 ≠ k := by
      intro e he heq
      have hdisj := List.disjoint_of_nodup_append hnd
      have h1 : k ∈ acc.map Prod.fst := heq ▸ List.mem_map_of_mem Prod.fst he
      exact hdisj h1 (by simp)
    rw [parseLabelPair_pairStr acc k v hkv.1 hkv.2 hfresh]
    have hnd' : ((acc ++ [(k, v)]).map Prod.fst ++ rest.map Prod.fst).Nodup := by
      simpa [List.map_append, List.append_assoc] using hnd
    rw [ih (acc ++ [(k, v)]) (fun p hp => hgood p (List.mem_cons_of_mem _ hp)) hnd']
    simp

theorem serializeLabels_ne_nil (l : List (GoStr × GoStr)) (h : l ≠ []) :
    serializeLabels l ≠ [] := by
  cases l with
  | nil => cases h rfl
  | cons p rest =>
    obtain ⟨k, v⟩ := p
    cases rest with
    | nil => exact pairStr_ne_nil k v
    | cons e r => simp [serializeLabels]

/-- C7 (amended): serializing a label map whose keys contain no quote,
comma or equals sign and no surrounding whitespace, and whose values
contain no quote character, and re-parsing with `parseLabels`, yields
the original map — including values containing commas inside the
quotes.  (A quote character inside a value breaks the round trip; see
the quote-value counterexample.) -/
theorem parseLabels_serializeLabels_roundtrip (l : List (GoStr × GoStr))
    (h : ∀ p ∈ l, GoodKey p.1 ∧ GoodVal p.2)
    (hnd : (l.map Prod.fst).Nodup) :
    parseLabels (serializeLabels l) = l := by
  cases hl : l with
  | nil => rfl
  | cons p rest =>
    subst hl
    have hne : serializeLabels (p :: rest) ≠ [] :=
      serializeLabels_ne_nil _ (by simp)
    unfold parseLabels
    rw [if_neg (by simpa using hne)]
    rw [splitPairs_serialize _ h (by simp)]
    rw [foldl_parseLabelPair _ [] h (by simpa using hnd)]
    simp

/-- Witness for the round-trip theorem: two labels, one value holding
a comma and one holding a space. -/
theorem parseLabels_roundtrip_witness :
    ((∀ p ∈ [("a".data, "x,y".data), ("b".data, "w z".data)],
        GoodKey p.1 ∧ GoodVal p.2) ∧
      (([("a".data, "x,y".data), ("b".data, "w z".data)].map Prod.fst).Nodup)) ∧
    parseLabels (serializeLabels [("a".data, "x,y".data), ("b".data, "w z".data)]) =
      [("a".data, "x,y".data), ("b".data, "w z".data)] :=
  ⟨⟨by decide, by decide⟩,
   parseLabels_serializeLabels_roundtrip
     [("a".data, "x,y".data), ("b".data, "w z".data)] (by decide) (by decide)⟩

/-- C7 counterexample to the claim as stated ("for every label map"):
a value consisting of one double-quote character serializes to
`k="""`, which re-parses to the empty value, not the original map. -/
theorem parseLabels_quote_value_breaks :
    parseLabels (serializeLabels [("k".data, "\"".data)]) =
      [("k".data, [])] ∧
    ([(("k".data : GoStr), ([] : GoStr))] : List (GoStr × GoStr)) ≠
      [("k".data, "\"".data)] := by
  constructor
  · decide
  · decide

/-! ## Exposition-parser lemmas -/

theorem helpPre_chars : "# HELP ".data = ['#', ' ', 'H', 'E', 'L', 'P', ' '] := rfl

theorem typePre_chars : "# TYPE ".data = ['#', ' ', 'T', 'Y', 'P', 'E', ' '] := rfl

theorem hashPre_chars : "#".data = ['#'] := rfl

theorem noWs_not_space (w : GoStr) (hw : NoWs w) (c : Char) (hc : c ∈ w) :
    c ≠ ' ' := by
  intro h
  have h2 := hw c hc
  rw [h] at h2
  exact absurd h2 (by decide)

theorem noWs_getLast_clean (w : GoStr) (hw : NoWs w) :
    w.getLast?.all (fun c => !c.isWhitespace) = true := by
  cases hg : w.getLast? with
  | none => rfl
  | some c =>
    have hc : c ∈ w := List.mem_of_mem_getLast? hg
    simp [hw c hc]

theorem goHasPre_typeLine_not_help (rest : GoStr) :
    goHasPre "# HELP ".data ("# TYPE ".data ++ rest) = false := by
  rw [helpPre_chars, typePre_chars]
  simp [goHasPre]

theorem goHasPre_cons_same (c : Char) (p l : GoStr) :
    goHasPre (c :: p) (c :: l) = goHasPre p l := by
  simp [goHasPre]

theorem goFieldsAux_noWs (w : GoStr) (hw : NoWs w) :
    ∀ rest acc, goFieldsAux (w ++ rest) acc = goFieldsAux rest (acc ++ w) := by
  induction w with
  | nil => intro rest acc; simp
  | cons c cs ih =>
    intro rest acc
    have hc : ¬ (c.isWhitespace = true) := by
      simp [hw c (List.mem_cons_self c cs)]
    simp only [List.cons_append, goFieldsAux, if_neg hc, List.append_eq]
    rw [ih (fun x hx => hw x (List.mem_cons_of_mem c hx)) rest (acc ++ [c])]
    simp

theorem goFields_pair (n v : GoStr) (hn : n ≠ []) (hnw : NoWs n)
    (hv : v ≠ []) (hvw : NoWs v) : goFields (n ++ ' ' :: v) = [n, v] := by
  unfold goFields
  rw [goFieldsAux_noWs n hnw (' ' :: v) []]
  have hne : n.isEmpty = false := by
    cases n with
    | nil => cases hn rfl
    | cons c cs => rfl
  have hve : v.isEmpty = false := by
    cases v with
    | nil => cases hv rfl
    | cons c cs => rfl
  simp only [List.nil_append, goFieldsAux, if_pos (by decide : (' ').isWhitespace = true)]
  rw [if_neg (by simp [hne])]
  have h2 := goFieldsAux_noWs v hvw [] []
  rw [List.append_nil] at h2
  rw [h2]
  simp [goFieldsAux, hve]

theorem pairStr_noWs (k v : GoStr) (hk : NoWs k) (hv : NoWs v) :
    NoWs (pairStr (k, v)) := by
  intro c hc
  unfold pairStr at hc
  rcases List.mem_append.mp hc with hc | hc
  · rcases List.mem_append.mp hc with hc | hc
    · exact hk c hc
    · rcases List.mem_cons.mp hc with hc | hc
      · subst hc; decide
      · rcases List.mem_cons.mp hc with hc | hc
        · subst hc; decide
        · exact hv c hc
  · rcases List.mem_singleton.mp hc with rfl
    decide

theorem serializeLabels_noWs (ls : List (GoStr × GoStr))
    (h : ∀ p ∈ ls, NoWs p.1 ∧ NoWs p.2) : NoWs (serializeLabels ls) := by
  induction ls with
  | nil => intro c hc; cases hc
  | cons p rest ih =>
    obtain ⟨k, v⟩ := p
    have hkv := h (k, v) (List.mem_cons_self _ _)
    cases rest with
    | nil =>
      rw [serializeLabels_single]
      exact pairStr_noWs k v hkv.1 hkv.2
    | cons e r =>
      rw [serializeLabels_cons k v (e :: r) (by simp)]
      intro c hc
      rcases List.mem_append.mp hc with hc | hc
      · exact pairStr_noWs k v hkv.1 hkv.2 c hc
      · rcases List.mem_cons.mp hc with hc | hc
        · subst hc; decide
        · exact ih (fun p hp => h p (List.mem_cons_of_mem _ hp)) c hc

theorem parseMetricLine_sample (m v : GoStr) (cur : OpenGSMetric) (q : ℚ)
    (hm : m ≠ []) (hmw : NoWs m) (hv : v ≠ []) (hvw : NoWs v)
    (hq : parseFloatQ v = some q) :
    ∃ mm, parseMetricLine (m ++ ' ' :: v) cur = some mm ∧ mm.type = cur.type := by
  have hfields := goFields_pair m v hm hmw hv hvw
  have h2 : (parseMetricLine (m ++ ' ' :: v) cur).map (·.type) = some cur.type := by
    by_cases hb : goContains "\x7b".data m
    · simp [parseMetricLine, hfields, hq, hb]
    · simp [parseMetricLine, hfields, hq, hb]
  cases hres : parseMetricLine (m ++ ' ' :: v) cur with
  | none => rw [hres] at h2; cases h2
  | some mm =>
    rw [hres] at h2
    refine ⟨mm, rfl, ?_⟩
    simpa using h2

theorem parseLinesAux_blank (rest' : List GoStr) (cur : OpenGSMetric) :
    parseLinesAux ([] :: rest') cur = parseLinesAux rest' cur := by
  simp [parseLinesAux, goTrimSpace, goTrimLeft]

theorem parseLinesAux_help (n h : GoStr) (rest' : List GoStr) (cur : OpenGSMetric)
    (hn : n ≠ []) (hnw : NoWs n) (hh : h ≠ [])
    (hhl : h.getLast?.all (fun c => !c.isWhitespace) = true) :
    parseLinesAux (("# HELP ".data ++ n ++ ' ' :: h) :: rest') cur =
      parseLinesAux rest'
        { name := n, help := h, type := [], value := 0, labels := [] } := by
  have hedge : EdgeClean ("# HELP ".data ++ n ++ ' ' :: h) := by
    constructor
    · rw [helpPre_chars]
      simp
    · have hre : ("# HELP ".data ++ n ++ ' ' :: h) =
          ("# HELP ".data ++ n ++ [' ']) ++ h := by simp
      rw [hre, List.getLast?_append_of_ne_nil _ hh]
      exact hhl
  have htrim := goTrimSpace_eq_self _ hedge
  have hemp : ("# HELP ".data ++ n ++ ' ' :: h).isEmpty = false := by
    rw [helpPre_chars]
    rfl
  have hpre : goHasPre "# HELP ".data ("# HELP ".data ++ n ++ ' ' :: h) = true := by
    have hre : "# HELP ".data ++ n ++ ' ' :: h =
        "# HELP ".data ++ (n ++ ' ' :: h) := by simp
    rw [hre]
    exact goHasPre_refl_append _ _
  have hdrop : ("# HELP ".data ++ n ++ ' ' :: h).drop 7 = n ++ ' ' :: h := by
    have hre : "# HELP ".data ++ n ++ ' ' :: h =
        "# HELP ".data ++ (n ++ ' ' :: h) := by simp
    have hlen : ("# HELP ".data).length = 7 := rfl
    rw [hre, ← hlen, List.drop_left]
  have hsplit : splitFirst ' ' (n ++ ' ' :: h) = (n, some h) :=
    splitFirst_append ' ' n h (fun c hc => noWs_not_space n hnw c hc)
  simp only [parseLinesAux, htrim, hemp, Bool.false_eq_true, if_false, hpre,
    if_true, hdrop, hsplit]

theorem parseLinesAux_type (n k : GoStr) (rest' : List GoStr) (cur : OpenGSMetric)
    (hn : n ≠ []) (hnw : NoWs n) (hk : k ≠ []) (hkw : NoWs k) :
    parseLinesAux (("# TYPE ".data ++ n ++ ' ' :: k) :: rest') cur =
      parseLinesAux rest' { cur with type := k } := by
  have hedge : EdgeClean ("# TYPE ".data ++ n ++ ' ' :: k) := by
    constructor
    · rw [typePre_chars]
      simp
    · have hre : ("# TYPE ".data ++ n ++ ' ' :: k) =
          ("# TYPE ".data ++ n ++ [' ']) ++ k := by simp
      rw [hre, List.getLast?_append_of_ne_nil _ hk]
      exact noWs_getLast_clean k hkw
  have htrim := goTrimSpace_eq_self _ hedge
  have hemp : ("# TYPE ".data ++ n ++ ' ' :: k).isEmpty = false := by
    rw [typePre_chars]
    rfl
  have hnothelp : goHasPre "# HELP ".data ("# TYPE ".data ++ n ++ ' ' :: k) = false := by
    have hre : "# TYPE ".data ++ n ++ ' ' :: k =
        "# TYPE ".data ++ (n ++ ' ' :: k) := by simp
    rw [hre]
    exact goHasPre_typeLine_not_help _
  have hpre : goHasPre "# TYPE ".data ("# TYPE ".data ++ n ++ ' ' :: k) = true := by
    have hre : "# TYPE ".data ++ n ++ ' ' :: k =
        "# TYPE ".data ++ (n ++ ' ' :: k) := by simp
    rw [hre]
    exact goHasPre_refl_append _ _
  have hdrop : ("# TYPE ".data ++ n ++ ' ' :: k).drop 7 = n ++ ' ' :: k := by
    have hre : "# TYPE ".data ++ n ++ ' ' :: k =
        "# TYPE ".data ++ (n ++ ' ' :: k) := by simp
    have hlen : ("# TYPE ".data).length = 7 := rfl
    rw [hre, ← hlen, List.drop_left]
  have hfields : goFields (n ++ ' ' :: k) = [n, k] := goFields_pair n k hn hnw hk hkw
  simp only [parseLinesAux, htrim, hemp, Bool.false_eq_true, if_false, hnothelp,
    hpre, if_true, hdrop, hfields]

theorem parseLinesAux_comment (t : GoStr) (rest' : List GoStr) (cur : OpenGSMetric)
    (hl : t.getLast?.all (fun c => !c.isWhitespace) = true)
    (h1 : goHasPre " HELP ".data t = false)
    (h2 : goHasPre " TYPE ".data t = false) :
    parseLinesAux (('#' :: t) :: rest') cur = parseLinesAux rest' cur := by
  have hedge : EdgeClean ('#' :: t) := by
    constructor
    · exact (by decide : Option.all (fun c => !c.isWhitespace) (some '#') = true)
    · cases t with
      | nil => exact (by decide :
          Option.all (fun c => !c.isWhitespace) (['#'] : GoStr).getLast? = true)
      | cons c ts =>
        rw [List.getLast?_cons_cons]
        exact hl
  have htrim := goTrimSpace_eq_self _ hedge
  have hemp : ('#' :: t).isEmpty = false := rfl
  have hnothelp : goHasPre "# HELP ".data ('#' :: t) = false := by
    rw [helpPre_chars, goHasPre_cons_same]
    have hch : [' ', 'H', 'E', 'L', 'P', ' '] = " HELP ".data := rfl
    rw [hch]
    exact h1
  have hnottype : goHasPre "# TYPE ".data ('#' :: t) = false := by
    rw [typePre_chars, goHasPre_cons_same]
    have hch : [' ', 'T', 'Y', 'P', 'E', ' '] = " TYPE ".data := rfl
    rw [hch]
    exact h2
  have hhash : goHasPre "#".data ('#' :: t) = true := by
    rw [hashPre_chars]
    simp [goHasPre]
  simp only [parseLinesAux, htrim, hemp, Bool.false_eq_true, if_false,
    hnothelp, hnottype, hhash, if_true]

theorem parseLinesAux_sample (n : GoStr) (ls' : List (GoStr × GoStr)) (v : GoStr)
    (rest' : List GoStr) (cur : OpenGSMetric)
    (hn : n ≠ []) (hnw : NoWs n)
    (hhash : n.head?.all (fun c => !(c == '#')) = true)
    (hls : ∀ p ∈ ls', NoWs p.1 ∧ NoWs p.2)
    (hvne : v ≠ []) (hvw : NoWs v) (hq : (parseFloatQ v).isSome = true) :
    ∃ mm, parseLinesAux (renderLine (.sampleL n ls' v) :: rest') cur =
      mm :: parseLinesAux rest' cur ∧ mm.type = cur.type := by
  obtain ⟨hd, n', rfl⟩ : ∃ hd n', n = hd :: n' := by
    cases n with
    | nil => cases hn rfl
    | cons hd n' => exact ⟨hd, n', rfl⟩
  have hhd : (hd == '#') = false := by simpa using hhash
  have hdne : hd ≠ '#' := by simpa using hhd
  set B : GoStr :=
    if ls'.isEmpty then [] else '{' :: serializeLabels ls' ++ ['}'] with hB
  have hBnw : NoWs B := by
    rw [hB]
    split
    · intro c hc; cases hc
    · intro c hc
      rcases List.mem_cons.mp hc with hc | hc
      · subst hc; decide
      · rcases List.mem_append.mp hc with hc | hc
        · exact serializeLabels_noWs ls' hls c hc
        · rcases List.mem_singleton.mp hc with rfl; decide
  have hrl : renderLine (.sampleL (hd :: n') ls' v) = ((hd :: n') ++ B) ++ ' ' :: v := by
    simp [renderLine, hB]
  have hmne : (hd :: n') ++ B ≠ [] := by simp
  have hmnw : NoWs ((hd :: n') ++ B) := by
    intro c hc
    rcases List.mem_append.mp hc with hc | hc
    · exact hnw c hc
    · exact hBnw c hc
  have hline : (hd :: n') ++ B ++ ' ' :: v = hd :: (n' ++ B ++ ' ' :: v) := by simp
  have hedge : EdgeClean (((hd :: n') ++ B) ++ ' ' :: v) := by
    constructor
    · have hh : ((((hd :: n') ++ B) ++ ' ' :: v)).head? = some hd := rfl
      rw [hh]
      have := hnw hd (List.mem_cons_self _ _)
      simp [this]
    · have hre : (((hd :: n') ++ B) ++ ' ' :: v) =
          (((hd :: n') ++ B) ++ [' ']) ++ v := by simp
      rw [hre, List.getLast?_append_of_ne_nil _ hvne]
      exact noWs_getLast_clean v hvw
  have htrim := goTrimSpace_eq_self _ hedge
  have hemp : (((hd :: n') ++ B) ++ ' ' :: v).isEmpty = false := rfl
  have hnothelp : goHasPre "# HELP ".data (((hd :: n') ++ B) ++ ' ' :: v) = false := by
    rw [helpPre_chars]
    exact goHasPre_false_of_head _ '#' _ hd hdne
  have hnottype : goHasPre "# TYPE ".data (((hd :: n') ++ B) ++ ' ' :: v) = false := by
    rw [typePre_chars]
    exact goHasPre_false_of_head _ '#' _ hd hdne
  have hnothash : goHasPre "#".data (((hd :: n') ++ B) ++ ' ' :: v) = false := by
    rw [hashPre_chars]
    exact goHasPre_false_of_head _ '#' _ hd hdne
  have hspace : goContains " ".data (((hd :: n') ++ B) ++ ' ' :: v) = true := by
    have hmem : ' ' ∈ ((hd :: n') ++ B) ++ ' ' :: v :=
      List.mem_append.mpr (Or.inr (List.mem_cons_self _ _))
    exact goContains_singleton ' ' _ hmem
  obtain ⟨q, hq'⟩ := Option.isSome_iff_exists.mp hq
  obtain ⟨mm, hmm, hmt⟩ :=
    parseMetricLine_sample ((hd :: n') ++ B) v cur q hmne hmnw hvne hvw hq'
  refine ⟨mm, ?_, hmt⟩
  rw [hrl]
  simp only [parseLinesAux, htrim, hemp, Bool.false_eq_true, if_false,
    hnothelp, hnottype, hnothash, hspace, if_true, hmm]

theorem parseLinesAux_valid (ls : List ExpLine) :
    ∀ cur, (∀ e ∈ ls, ValidExpLine e) →
      (parseLinesAux (ls.map renderLine) cur).map (·.type) = specKinds ls cur.type ∧
      (parseLinesAux (ls.map renderLine) cur).length =
        (ls.filter isSampleLine).length := by
  induction ls with
  | nil => intro cur _; exact ⟨rfl, rfl⟩
  | cons e rest ih =>
    intro cur hval
    have hv_e : ValidExpLine e := hval e (List.mem_cons_self _ _)
    have hv_rest : ∀ x ∈ rest, ValidExpLine x :=
      fun x hx => hval x (List.mem_cons_of_mem _ hx)
    cases e with
    | blank =>
      simp only [List.map_cons, renderLine]
      rw [parseLinesAux_blank]
      have hih := ih cur hv_rest
      exact ⟨by simpa [specKinds] using hih.1,
             by simpa [isSampleLine] using hih.2⟩
    | helpL n h =>
      obtain ⟨hn, hnw, hh, hhl⟩ := hv_e
      simp only [List.map_cons, renderLine]
      rw [parseLinesAux_help n h _ cur hn hnw hh hhl]
      have hih := ih { name := n, help := h, type := [], value := 0, labels := [] }
        hv_rest
      exact ⟨by simpa [specKinds] using hih.1,
             by simpa [isSampleLine] using hih.2⟩
    | typeL n k =>
      obtain ⟨hn, hnw, hk, hkw⟩ := hv_e
      simp only [List.map_cons, renderLine]
      rw [parseLinesAux_type n k _ cur hn hnw hk hkw]
      have hih := ih { cur with type := k } hv_rest
      exact ⟨by simpa [specKinds] using hih.1,
             by simpa [isSampleLine] using hih.2⟩
    | commentL t =>
      obtain ⟨hl, h1, h2⟩ := hv_e
      simp only [List.map_cons, renderLine]
      rw [parseLinesAux_comment t _ cur hl h1 h2]
      have hih := ih cur hv_rest
      exact ⟨by simpa [specKinds] using hih.1,
             by simpa [isSampleLine] using hih.2⟩
    | sampleL n ls' v =>
      obtain ⟨hn, hnw, hhash, hls, hvne, hvw, hq⟩ := hv_e
      obtain ⟨mm, hmm, hmt⟩ :=
        parseLinesAux_sample n ls' v (rest.map renderLine) cur
          hn hnw hhash hls hvne hvw hq
      simp only [List.map_cons]
      rw [hmm]
      have hih := ih cur hv_rest
      constructor
      · simpa [specKinds, hmt] using hih.1
      · simpa [isSampleLine] using hih.2

/-- C2 (amended): for every valid exposition-format input,
`parsePrometheusFormat` produces exactly one parsed metric per sample
line (and none for comment or blank lines), and each produced metric's
kind equals the type of the running template: the kind set by the most
recently seen `# TYPE` line regardless of whether its name matches,
cleared by any intervening `# HELP` line, and empty if no `# TYPE`
line is in effect. -/
theorem parsePrometheusFormat_valid_input (ls : List ExpLine)
    (hval : ∀ e ∈ ls, ValidExpLine e) :
    (parsePrometheusFormat (ls.map renderLine)).length =
      (ls.filter isSampleLine).length ∧
    (parsePrometheusFormat (ls.map renderLine)).map (·.type) = specKinds ls [] := by
  have h := parseLinesAux_valid ls
    { name := [], type := [], help := [], value := 0, labels := [] } hval
  exact ⟨h.2, h.1⟩

/-- Witness for the valid-input parser theorem: a help line, a type
line, two sample lines (one with a labels block holding a comma inside
quotes), a comment and a blank line. -/
theorem parsePrometheusFormat_valid_witness :
    (∀ e ∈ [ExpLine.helpL "a".data "help text".data,
            ExpLine.typeL "a".data "counter".data,
            ExpLine.sampleL "b".data [] "1".data,
            ExpLine.commentL " note".data,
            ExpLine.blank,
            ExpLine.sampleL "a".data [("x".data, "1,2".data)] "3.5".data],
        ValidExpLine e) ∧
    ((parsePrometheusFormat
        ([ExpLine.helpL "a".data "help text".data,
          ExpLine.typeL "a".data "counter".data,
          ExpLine.sampleL "b".data [] "1".data,
          ExpLine.commentL " note".data,
          ExpLine.blank,
          ExpLine.sampleL "a".data [("x".data, "1,2".data)] "3.5".data].map
            renderLine)).length =
      ([ExpLine.helpL "a".data "help text".data,
        ExpLine.typeL "a".data "counter".data,
        ExpLine.sampleL "b".data [] "1".data,
        ExpLine.commentL " note".data,
        ExpLine.blank,
        ExpLine.sampleL "a".data [("x".data, "1,2".data)] "3.5".data].filter
          isSampleLine).length ∧
     (parsePrometheusFormat
        ([ExpLine.helpL "a".data "help text".data,
          ExpLine.typeL "a".data "counter".data,
          ExpLine.sampleL "b".data [] "1".data,
          ExpLine.commentL " note".data,
          ExpLine.blank,
          ExpLine.sampleL "a".data [("x".data, "1,2".data)] "3.5".data].map
            renderLine)).map (·.type) =
      specKinds
        [ExpLine.helpL "a".data "help text".data,
         ExpLine.typeL "a".data "counter".data,
         ExpLine.sampleL "b".data [] "1".data,
         ExpLine.commentL " note".data,
         ExpLine.blank,
         ExpLine.sampleL "a".data [("x".data, "1,2".data)] "3.5".data] []) :=
  ⟨by decide,
   parsePrometheusFormat_valid_input
     [ExpLine.helpL "a".data "help text".data,
      ExpLine.typeL "a".data "counter".data,
      ExpLine.sampleL "b".data [] "1".data,
      ExpLine.commentL " note".data,
      ExpLine.blank,
      ExpLine.sampleL "a".data [("x".data, "1,2".data)] "3.5".data] (by decide)⟩

/-- C2 counterexample to the claim as stated: after `# TYPE a counter`,
the sample line `b 1` — whose name `b` matches no preceding `# TYPE`
line — is emitted with kind `counter` inherited from the unrelated
template, not the claimed `unknown`. -/
theorem parsePrometheusFormat_type_ignores_name :
    (parsePrometheusFormat ["# TYPE a counter".data, "b 1".data]).map (·.type) =
      ["counter".data] ∧
    "counter".data ≠ "unknown".data := by
  constructor
  · decide
  · decide

/-- C10: after every completed `UpdateTopology` call — that is, in
every manager state reachable from `NewCollectorManager` by a sequence
of reconciliations — no two live collectors in the `collectors` map
are bound to the same port, regardless of NF type. -/
theorem runTopologies_ports_nodup (ts : List Topology) :
    (portsOf (runTopologies ts).collectors).Nodup := by
  suffices h : ∀ (s : ManagerState), (portsOf s.collectors).Nodup →
      (portsOf (ts.foldl (fun s t => (updateTopology s t).1) s).collectors).Nodup by
    exact h initManager (by simp [initManager, portsOf])
  induction ts with
  | nil => intro s hs; exact hs
  | cons t rest ih =>
    intro s hs
    exact ih _ (updateTopology_ports_nodup s t hs)

end OMModule

